import Mathlib

/-! apcupsd: status repository and framed transport.

A shallow embedding of

* `trunk/include/UpsValue.h` (classes `UpsValue`, `UpsDatum`, `UpsInfo`),
* `tags/V3_9_10_AFTER_STATUS_FLAGS/src/lib/apclibnis.c`
  (`read_nbytes`, `write_nbytes`, `net_recv`, `net_send`, `net_open`,
  `net_close`), and
* `branches/Branch-3_14/src/win32/winmain.cpp` (`WinMain`),

followed by theorems about them.  Method calls become functions that take the
object and return the new object; reference out-parameters become an extra
argument (the old content) and an extra result (the new content); `abort()`
becomes `none`.  The mutex of `UpsInfo` has no effect on a single thread of
calls and is left out.
-/

namespace Apcupsd

/-! ## UpsValue.h -/

/-- The private `enum type` of `UpsValue`. -/
inductive UpsType where
  | TYPE_SIGNED
  | TYPE_STRING
  deriving DecidableEq

/-- The class `UpsValue`: the tag `_type` together with the member that the tag
selects, `_signed` (a `signed long`) or `*_string` (an `astring`, taken to be the
character string it holds). -/
inductive UpsValue where
  | signed (_signed : Int)
  | string (_string : String)
  deriving DecidableEq

namespace UpsValue

/-- The member `_type`. -/
def _type : UpsValue → UpsType
  | signed _ => UpsType.TYPE_SIGNED
  | string _ => UpsType.TYPE_STRING

/-- The constructor `UpsValue()`, which runs `assign(0L)`. -/
def default : UpsValue := signed 0

/-- The member `operator==`. -/
def eq (lhs rhs : UpsValue) : Bool :=
  if lhs._type ≠ rhs._type then false
  else
    match lhs, rhs with
    | signed a, signed b => a == b
    | string a, string b => a == b
    | _, _ => false

/-- The member `operator!=`, `!(*this == rhs)`. -/
def ne (lhs rhs : UpsValue) : Bool := !(lhs.eq rhs)

/-- The member `lval()`; `none` stands for `abort()`. -/
def lval : UpsValue → Option Int
  | signed n => some n
  | string _ => none

/-- The member `strval()`; `none` stands for `abort()`. -/
def strval : UpsValue → Option String
  | string s => some s
  | signed _ => none

end UpsValue

/-- The struct `UpsDatum`. -/
structure UpsDatum where
  ci : Int
  value : UpsValue
  deriving DecidableEq

/-- Modelled from the spec: `amap.h` is not among the sources.  The spec calls
`_values` a "mapping ci → Status Value (keys unique, insertion order
irrelevant)", and that is what this is: the value stored under each key, if
any. -/
def amap (K V : Type) : Type := K → Option V

namespace amap

variable {K V : Type}

/-- The map of a newly constructed `amap`: no key is present. -/
def empty : amap K V := fun _ => none

/-- The call `find(key)` followed by the dereference of the iterator; `none` is
`end()`. -/
def find (m : amap K V) (key : K) : Option V := m key

/-- The call `contains(key)`. -/
def contains (m : amap K V) (key : K) : Bool := (m key).isSome

/-- The expression `m[key]` read as a value.  `UpsInfo()` and `update` create
entries by `m[key] = ...`, so `operator[]` on an absent key makes the entry,
holding `dflt` (the default-constructed value); the result is the value
referred to and the map after the call. -/
def index [DecidableEq K] (m : amap K V) (key : K) (dflt : V) : V × amap K V :=
  match m key with
  | some v => (v, m)
  | none => (dflt, fun k => if k = key then some dflt else m k)

/-- The statement `m[key] = val`: after it `key` holds `val`, every other key
is as before. -/
def assign [DecidableEq K] (m : amap K V) (key : K) (val : V) : amap K V :=
  fun k => if k = key then some val else m k

end amap

/-- Modelled from the spec: `aqueue.h` is not among the sources.  The spec calls
`_notifs` an "internal FIFO of Change Records"; it is the list of the queued
items, oldest first. -/
def aqueue (T : Type) : Type := List T

namespace aqueue

variable {T : Type}

/-- The queue of a newly constructed `aqueue`. -/
def empty : aqueue T := ([] : List T)

/-- The call `enqueue(item)`: the item goes to the end. -/
def enqueue (q : aqueue T) (item : T) : aqueue T := List.append q [item]

/-- The call `dequeue(out)`: `false` and `out` untouched on an empty queue,
otherwise `true`, the oldest item in `out`, and the queue without it. -/
def dequeue (q : aqueue T) (out : T) : Bool × T × aqueue T :=
  match q with
  | [] => (false, out, [])
  | item :: rest => (true, item, rest)

/-- The items of the queue, oldest first. -/
def toList (q : aqueue T) : List T := q

end aqueue

/-- The class `UpsInfo`, without its mutex. -/
structure UpsInfo where
  _values : amap Int UpsValue
  _notifs : aqueue UpsDatum

namespace UpsInfo

/-- The constructor `UpsInfo()`.  `CI_BatteryPresent` is an enumerator of
`defines.h`, which is not among the sources, so its number is a parameter.
`_values[CI_BatteryPresent] = true` selects `operator=(signed long)`, the only
overload reached by a standard conversion, with `true` converted to `1`. -/
def new (CI_BatteryPresent : Int) : UpsInfo :=
  { _values := amap.assign amap.empty CI_BatteryPresent (UpsValue.signed 1)
    _notifs := aqueue.empty }

/-- The private member `notify`. -/
def notify (self : UpsInfo) (ci : Int) (val : UpsValue) : UpsInfo :=
  let datum : UpsDatum := { ci := ci, value := val }
  { self with _notifs := self._notifs.enqueue datum }

/-- The member `update`.  The right operand of `||` is evaluated only when
`contains(ci)` holds. -/
def update (self : UpsInfo) (ci : Int) (val : UpsValue) : UpsInfo :=
  if !self._values.contains ci then
    notify { self with _values := self._values.assign ci val } ci val
  else
    let cur := self._values.index ci UpsValue.default
    let self1 : UpsInfo := { self with _values := cur.2 }
    if cur.1.ne val then
      notify { self1 with _values := self1._values.assign ci val } ci val
    else self1

/-- The member `avail`. -/
def avail (self : UpsInfo) (ci : Int) : Bool := self._values.contains ci

/-- The member `bool get(int ci, UpsValue &val)`: the result, the content of
`val` after the call, and the object after the call. -/
def get (self : UpsInfo) (ci : Int) (val : UpsValue) : Bool × UpsValue × UpsInfo :=
  let result := self._values.contains ci
  if result then
    let cur := self._values.index ci UpsValue.default
    (result, cur.1, { self with _values := cur.2 })
  else (result, val, self)

/-- The member `UpsValue &get(int ci)`: the value referred to and the object
after the call. -/
def getRef (self : UpsInfo) (ci : Int) : UpsValue × UpsInfo :=
  let cur := self._values.index ci UpsValue.default
  (cur.1, { self with _values := cur.2 })

/-- The member `getbool`; `none` stands for the `abort()` of `lval()`.  The
conversion of the `signed long` to `bool` gives `true` for every non-zero
number. -/
def getbool (self : UpsInfo) (ci : Int) : Option Bool :=
  match self._values.find ci with
  | none => some false
  | some v =>
    match v.lval with
    | none => none
    | some n => some (n != 0)

/-- The member `pend`: the result, the content of `val` after the call, and the
object after the call. -/
def pend (self : UpsInfo) (val : UpsDatum) : Bool × UpsDatum × UpsInfo :=
  let r := self._notifs.dequeue val
  (r.1, r.2.1, { self with _notifs := r.2.2 })

/-- A sequence of `update` calls, in the order of the list. -/
def updates (self : UpsInfo) : List (Int × UpsValue) → UpsInfo
  | [] => self
  | u :: us => updates (self.update u.1 u.2) us

/-- The records that one `update` call put on the queue: what the queue holds
after the call beyond what it held before. -/
def enqueuedBy (self : UpsInfo) (ci : Int) (val : UpsValue) : List UpsDatum :=
  List.drop (self._notifs.toList.length) (self.update ci val)._notifs.toList

/-- The records that a sequence of `update` calls put on the queue, call by
call, in the order of the calls. -/
def enqueued (self : UpsInfo) : List (Int × UpsValue) → List UpsDatum
  | [] => []
  | u :: us => self.enqueuedBy u.1 u.2 ++ enqueued (self.update u.1 u.2) us

/-- That many successive `pend` calls: what each call returned (result and
content of `val`), and the object after the last. -/
def pends (self : UpsInfo) (val : UpsDatum) : Nat → List (Bool × UpsDatum) × UpsInfo
  | 0 => ([], self)
  | n + 1 =>
    let r := self.pend val
    let rest := pends r.2.2 r.2.1 n
    ((r.1, r.2.1) :: rest.1, rest.2)

/-- The value passed to the most recent `update(ci, .)` of a sequence of calls,
if there is one. -/
def lastUpdate (ci : Int) : List (Int × UpsValue) → Option UpsValue
  | [] => none
  | u :: us =>
    match lastUpdate ci us with
    | some v => some v
    | none => if u.1 = ci then some u.2 else none

end UpsInfo

/-! ## apclibnis.c -/

/-- One `char` of a buffer or of the stream. -/
abbrev Byte : Type := Fin 256

/-- The values of `errno` that the code tells apart: 0, `EINTR`, `EAGAIN`, and
any other error number. -/
inductive Errno where
  | zero
  | EINTR
  | EAGAIN
  | other (code : Nat)
  deriving DecidableEq

/-- What one `read` call on the socket meets: bytes that arrive together (at
least one), or a failure with its `errno`.  A stream is a list of these; at its
end every `read` returns 0 (end of file). -/
inductive ReadEv where
  | data (b : Byte) (bs : List Byte)
  | fail (e : Errno)
  deriving DecidableEq

/-- How one `write` call on the socket goes: the kernel takes at most `k` bytes
of what is offered, or the call fails with its `errno`. -/
inductive WriteEv where
  | accept (k : Nat)
  | fail (e : Errno)
  deriving DecidableEq

/-- The process as far as apclibnis.c sees it: one connected socket, given by
what its `read` calls will meet (`inbound`), how its `write` calls will go
(`wsched`; past its end a `write` takes all that is offered) and the bytes
written to it so far (`wire`), together with `errno` and the globals
`net_errno` and `net_errmsg` (`none` is `NULL`). -/
structure Net where
  inbound : List ReadEv
  wsched : List WriteEv
  wire : List Byte
  errno : Errno
  net_errno : Errno
  net_errmsg : Option String
  deriving DecidableEq

/-- The bytes a reader can get from a stream before a failure other than
`EINTR` or `EAGAIN`, or the end of the stream, stops it. -/
def readable : List ReadEv → List Byte
  | [] => []
  | ReadEv.data b bs :: rest => b :: bs ++ readable rest
  | ReadEv.fail e :: rest =>
    if e = Errno.EINTR ∨ e = Errno.EAGAIN then readable rest else []

/-- Memory after `bytes` are stored at offset `ptr` of `buf`. -/
def store (buf : List Byte) (ptr : Nat) (bytes : List Byte) : List Byte :=
  buf.take ptr ++ bytes ++ buf.drop (ptr + bytes.length)

/-- The system call `read(fd, ptr, count)` for `count > 0`: the return value,
the bytes delivered, and the process after the call. -/
def read (w : Net) (count : Int) : Int × List Byte × Net :=
  match w.inbound with
  | [] => (0, [], w)
  | ReadEv.fail e :: rest => (-1, [], { w with inbound := rest, errno := e })
  | ReadEv.data b bs :: rest =>
    let got := (b :: bs).take count.toNat
    let inbound :=
      match (b :: bs).drop count.toNat with
      | [] => rest
      | c :: cs => ReadEv.data c cs :: rest
    ((got.length : Int), got, { w with inbound := inbound })

/-- The system call `write(fd, ptr, count)` for `count > 0`, `ptr` being the
memory from the pointer on: the return value and the process after the call. -/
def write (w : Net) (ptr : List Byte) (count : Int) : Int × Net :=
  match w.wsched with
  | [] => (count, { w with wire := w.wire ++ ptr.take count.toNat })
  | WriteEv.fail e :: rest => (-1, { w with wsched := rest, errno := e })
  | WriteEv.accept k :: rest =>
    let n := min k count.toNat
    ((n : Int), { w with wsched := rest, wire := w.wire ++ ptr.take n })

/-- The `do ... while` loop of `read_nbytes`, run for at most `fuel` calls of
`read`; `none` when the fuel runs out. -/
def read_retry : Nat → Net → Int → Option (Int × List Byte × Net)
  | 0, _, _ => none
  | fuel + 1, w, nleft =>
    let r := read w nleft
    if r.1 = -1 ∧ (r.2.2.errno = Errno.EINTR ∨ r.2.2.errno = Errno.EAGAIN) then
      read_retry fuel r.2.2 nleft
    else some r

/-- The `while (nleft > 0)` loop of `read_nbytes`, run for at most `fuel`
rounds; `buf` is the memory `ptr` points into and `ptr` the offset reached.
Each `do ... while` gets one call of `read` more than the stream has events,
which is as many as it can use.  The result is the return value, the memory
and the process; `none` when the fuel runs out. -/
def read_nbytes_loop :
    Nat → Net → List Byte → Nat → Int → Int → Option (Int × List Byte × Net)
  | fuel, w, buf, ptr, nbytes, nleft =>
    if nleft > 0 then
      match fuel with
      | 0 => none
      | fuel + 1 =>
        match read_retry (w.inbound.length + 1) w nleft with
        | none => none
        | some (nread, got, w1) =>
          if nread ≤ 0 then
            some (nread, buf, { w1 with net_errno := w1.errno })
          else
            read_nbytes_loop fuel w1 (store buf ptr got) (ptr + got.length) nbytes
              (nleft - nread)
    else some (nbytes - nleft, buf, w)

/-- The function `read_nbytes(fd, ptr, nbytes)`, `buf` being the memory at
`ptr`.  Every round but the last takes at least one byte off `nleft`, so
`nbytes` rounds are as many as the loop can make. -/
def read_nbytes (w : Net) (buf : List Byte) (nbytes : Int) :
    Option (Int × List Byte × Net) :=
  read_nbytes_loop nbytes.toNat { w with errno := Errno.zero } buf 0 nbytes nbytes

/-- The loop of `write_nbytes`, run for at most `fuel` rounds; `ptr` is the
memory from the pointer on.  `none` when the fuel runs out. -/
def write_nbytes_loop : Nat → Net → List Byte → Int → Int → Option (Int × Net)
  | fuel, w, ptr, nbytes, nleft =>
    if nleft > 0 then
      match fuel with
      | 0 => none
      | fuel + 1 =>
        let r := write w ptr nleft
        if r.1 ≤ 0 then some (r.1, { r.2 with net_errno := r.2.errno })
        else write_nbytes_loop fuel r.2 (ptr.drop r.1.toNat) nbytes (nleft - r.1)
    else some (nbytes - nleft, w)

/-- The function `write_nbytes(fd, ptr, nbytes)`. -/
def write_nbytes (w : Net) (ptr : List Byte) (nbytes : Int) : Option (Int × Net) :=
  write_nbytes_loop nbytes.toNat w ptr nbytes nbytes

/-- Conversion of an integer to `short` (16 bits, two's complement). -/
def toShort (x : Int) : Int := (x + 32768) % 65536 - 32768

/-- The two bytes in memory, in address order, of the `short` that `htons(x)`
returns: the 16 bits of `x`, high byte first. -/
def htons (x : Int) : List Byte :=
  [Fin.ofNat ((x % 65536) / 256).toNat, Fin.ofNat ((x % 65536) % 256).toNat]

/-- The value `ntohs` returns (an unsigned 16-bit number) for the `short` whose
two bytes in memory are `mem`, in address order. -/
def ntohs (mem : List Byte) : Int :=
  match mem with
  | [b0, b1] => (b0.val : Int) * 256 + (b1.val : Int)
  | _ => 0

/-- The function `net_recv(sockfd, buff, maxlen)`: the return value, the
memory at `buff` and the process after the call.  The variable `pktsiz` starts
as two bytes that `read_nbytes` overwrites before they are looked at. -/
def net_recv (w : Net) (buff : List Byte) (maxlen : Int) :
    Option (Int × List Byte × Net) :=
  match read_nbytes w [0, 0] 2 with
  | none => none
  | some (nbytes, mem, w1) =>
    if nbytes ≤ 0 then some (-1, buff, w1)
    else if nbytes ≠ 2 then some (-2, buff, w1)
    else
      let pktsiz := toShort (ntohs mem)
      if pktsiz > maxlen then
        some (-2, buff, { w1 with net_errmsg := some "net_recv: record length too large\n" })
      else if pktsiz = 0 then some (0, buff, w1)
      else
        match read_nbytes w1 buff pktsiz with
        | none => none
        | some (nbytes, buff1, w2) =>
          if nbytes ≤ 0 then
            some (-2, buff1, { w2 with net_errmsg := some "net_recv: read_nbytes error\n" })
          else if nbytes ≠ pktsiz then
            some (-2, buff1, { w2 with net_errmsg := some "net_recv: error in read_nbytes\n" })
          else some (nbytes, buff1, w2)

/-- The function `net_send(sockfd, buff, len)`: the return value and the
process after the call. -/
def net_send (w : Net) (buff : List Byte) (len : Int) : Option (Int × Net) :=
  let pktsiz := htons (toShort len)
  match write_nbytes w pktsiz 2 with
  | none => none
  | some (rc, w1) =>
    if rc ≠ 2 then
      some (-1, { w1 with
        net_errmsg := some "net_send: write_nbytes error of length prefix\n" })
    else
      match write_nbytes w1 buff len with
      | none => none
      | some (rc, w2) =>
        if rc ≠ len then
          some (-1, { w2 with net_errmsg := some "net_send: write_nbytes error\n" })
        else some (rc, w2)

/-- Every `write` call takes at least one byte: no failure and no call that
takes nothing. -/
def progress : List WriteEv → Bool
  | [] => true
  | WriteEv.accept k :: rest => decide (0 < k) && progress rest
  | WriteEv.fail _ :: _ => false

/-- A process with the given stream to read, the given behaviour of `write`,
nothing written yet and no error recorded. -/
def Net.start (inbound : List ReadEv) (wsched : List WriteEv) : Net :=
  { inbound := inbound, wsched := wsched, wire := [], errno := Errno.zero,
    net_errno := Errno.zero, net_errmsg := none }

/-! ## UpsValue.h: `format` -/

/-- Conversion of an integer to `int` (32 bits, two's complement). -/
def toInt32 (x : Int) : Int := (x + 2147483648) % 4294967296 - 2147483648

/-- The text the C library's `printf` family produces for the conversion `%d`.
The conversion takes an `int` from the argument list; where the argument
passed is a 64-bit `long` it gets the low 32 bits of it (the calling convention
of x86-64; the C standard leaves the mismatch undefined). -/
def printf_d (arg : Int) : String := toString (toInt32 arg)

/-- The member `format()`.  The function `astring::format` of `astring.h`, which
is not among the sources, is the parameter `astring_format`: the text it makes
from a format string and one `signed long` argument. -/
def UpsValue.format (astring_format : String → Int → String) : UpsValue → String
  | UpsValue.string s => s
  | UpsValue.signed n => astring_format "%d" n

/-! ## apclibnis.c: `net_close` and `net_open` -/

/-- The process after `close(sockfd)`: the socket is gone, `last` is the process
as `close` found it. -/
structure Closed where
  last : Net
  deriving DecidableEq

/-- The function `net_close(sockfd)`.  The two bytes of `short pktsiz = 0` are
zero in either byte order; the return value of `write_nbytes` is dropped. -/
def net_close (w : Net) : Option Closed :=
  match write_nbytes w [0, 0] 2 with
  | none => none
  | some (_, w1) => some { last := w1 }

/-- The value of `INADDR_NONE` as the `unsigned int` it is compared with: -1
converted, or the system's `0xffffffff`. -/
def INADDR_NONE : Nat := 4294967295

/-- The fields of `struct hostent` that `net_open` reads; `h_addr` is the
first address read as an `unsigned int`. -/
structure Hostent where
  h_length : Int
  h_addrtype : Int
  h_addr : Nat
  deriving DecidableEq

/-- The fields of the global `tcp_serv_addr` that `net_open` sets; `sin_port`
is the two bytes of `htons(port)`. -/
structure SockaddrIn where
  sin_family : Int
  sin_port : List Byte
  s_addr : Nat
  deriving DecidableEq

/-- The system calls `net_open` can make. -/
inductive Syscall where
  | inet_addr
  | gethostbyname
  | socket
  | connect
  deriving DecidableEq

/-- What the system does in one `net_open` call: the number of the constant
`AF_INET`, the return values of `inet_addr(host)`, `gethostbyname(host)`
(`none` is `NULL`), `socket(...)` and `connect(...)`, and the text of
`strerror(errno)` after `connect`. -/
structure OpenEnv where
  AF_INET : Int
  inet_addr : Nat
  gethostbyname : Option Hostent
  socket : Int
  connect : Int
  strerror : String
  deriving DecidableEq

/-- The outcome of `net_open`: the return value, the globals `net_errmsg` and
`tcp_serv_addr` after the call, and the system calls made, in order. -/
structure OpenResult where
  ret : Int
  net_errmsg : Option String
  tcp_serv_addr : SockaddrIn
  calls : List Syscall
  deriving DecidableEq

/-- The text `sprintf` makes for the format of `net_open`,
`"tcp_open: cannot connect to server %s on port %d.\nERR=%s\n"`. -/
def connect_errmsg (host : String) (port : Int) (err : String) : String :=
  "tcp_open: cannot connect to server " ++ host ++ " on port " ++ toString port ++
    ".\nERR=" ++ err ++ "\n"

/-- The part of `net_open` from `/* Open a TCP socket */` on.  The array
`net_errbuf` has 256 bytes; a message that does not fit with its final NUL
overruns it, which is `none` (characters are counted as one byte each). -/
def net_open_socket (env : OpenEnv) (host : String) (port : Int) (errmsg : Option String)
    (addr : SockaddrIn) (calls : List Syscall) : Option OpenResult :=
  if env.socket < 0 then
    some { ret := -1, net_errmsg := some "tcp_open: cannot open stream socket\n",
           tcp_serv_addr := addr, calls := calls ++ [Syscall.socket] }
  else if env.connect < 0 then
    if (connect_errmsg host port env.strerror).length < 256 then
      some { ret := -1, net_errmsg := some (connect_errmsg host port env.strerror),
             tcp_serv_addr := addr, calls := calls ++ [Syscall.socket, Syscall.connect] }
    else none
  else
    some { ret := env.socket, net_errmsg := errmsg, tcp_serv_addr := addr,
           calls := calls ++ [Syscall.socket, Syscall.connect] }

/-- The function `net_open(host, service, port)`; `errmsg` is `net_errmsg`
before the call.  The parameter `service` is not used by the code. -/
def net_open (env : OpenEnv) (host : String) (port : Int) (errmsg : Option String) :
    Option OpenResult :=
  let addr : SockaddrIn := { sin_family := env.AF_INET, sin_port := htons port, s_addr := 0 }
  if env.inet_addr ≠ INADDR_NONE then
    net_open_socket env host port errmsg { addr with s_addr := env.inet_addr }
      [Syscall.inet_addr]
  else
    match env.gethostbyname with
    | none =>
      some { ret := -1, net_errmsg := some "tcp_open: hostname error\n",
             tcp_serv_addr := addr, calls := [Syscall.inet_addr, Syscall.gethostbyname] }
    | some hp =>
      if hp.h_length ≠ 4 ∨ hp.h_addrtype ≠ env.AF_INET then
        some { ret := -1, net_errmsg := some "tcp_open: funny gethostbyname value\n",
               tcp_serv_addr := addr, calls := [Syscall.inet_addr, Syscall.gethostbyname] }
      else
        net_open_socket env host port errmsg { addr with s_addr := hp.h_addr }
          [Syscall.inet_addr, Syscall.gethostbyname]

/-! ## winmain.cpp -/

/-- The constant `MAX_COMMAND_ARGS`. -/
def MAX_COMMAND_ARGS : Nat := 100

/-- The flag `ApcupsdRunService`. -/
def ApcupsdRunService : String := "/service"

/-- The flag `ApcupsdRunAsUserApp`. -/
def ApcupsdRunAsUserApp : String := "/run"

/-- The flag `ApcupsdInstallService`. -/
def ApcupsdInstallService : String := "/install"

/-- The flag `ApcupsdRemoveService`. -/
def ApcupsdRemoveService : String := "/remove"

/-- The flag `ApcupsdKillRunningCopy`. -/
def ApcupsdKillRunningCopy : String := "/kill"

/-- The flag `ApcupsdShowHelp`. -/
def ApcupsdShowHelp : String := "/help"

/-- The flag `ApcupsdQuiet`. -/
def ApcupsdQuiet : String := "/quiet"

/-- The test `strcasecmp(a, b) == 0` of the C library: the two strings are the
same once upper-case ASCII letters are made lower-case. -/
def strcasecmp_eq (a b : String) : Bool :=
  a.data.map Char.toLower == b.data.map Char.toLower

/-- The `while ((arg = GetArg(&szCmdLine)))` loop of `WinMain`, over the
arguments that `GetArg` returns one after the other: the lists `command_args`
and `winargs` after it.  An argument that finds its list full and cannot go to
the other one is dropped. -/
def splitArgs : List String → List String × List String → List String × List String
  | [], lists => lists
  | arg :: rest, (command_args, winargs) =>
    if arg.data.head? ≠ some '/' ∧ command_args.length < MAX_COMMAND_ARGS then
      splitArgs rest (command_args ++ [arg], winargs)
    else if winargs.length < MAX_COMMAND_ARGS then
      splitArgs rest (command_args, winargs ++ [arg])
    else splitArgs rest (command_args, winargs)

/-- What `WinMain` does before it returns: the function it calls, with the
argument `quiet` for the two that take it, the usage dialog, or the two
dialogs for an unknown option. -/
inductive WinAction where
  | ApcupsdServiceMain
  | ApcupsdAppMain
  | InstallService (quiet : Bool)
  | RemoveService (quiet : Bool)
  | ApcupsdTerminate
  | ShowHelp
  | BadOption (arg : String)
  deriving DecidableEq

/-- The return values of the functions of `upsService` (winservice.h is not
among the sources) that `WinMain` returns as its own. -/
structure WinEnv where
  ApcupsdServiceMain : Int
  InstallService : Bool → Int
  RemoveService : Bool → Int

/-- The return value of `ApcupsdAppMain(service)`: both its `return`
statements return 0.  What it does before (the semaphore, the thread, the wait
for the exit request) is left out. -/
def ApcupsdAppMain (_service : Int) : Int := 0

/-- The loop `for (int i = 0; i < num_winargs; i++)` of `WinMain` from index
`i` on, `winargs` being the arguments from that index and `quiet` the flag so
far: what `WinMain` does and the value it returns.  After the last argument the
loop ends and control reaches the closing brace of `WinMain`, where there is no
`return` statement: that is `none`. -/
def actOnWinargs (env : WinEnv) : Bool → List String → Option (WinAction × Int)
  | _, [] => none
  | quiet, arg :: rest =>
    if strcasecmp_eq arg ApcupsdRunService then
      some (WinAction.ApcupsdServiceMain, env.ApcupsdServiceMain)
    else if strcasecmp_eq arg ApcupsdRunAsUserApp then
      some (WinAction.ApcupsdAppMain, ApcupsdAppMain 0)
    else if strcasecmp_eq arg ApcupsdInstallService then
      some (WinAction.InstallService quiet, env.InstallService quiet)
    else if strcasecmp_eq arg ApcupsdRemoveService then
      some (WinAction.RemoveService quiet, env.RemoveService quiet)
    else if strcasecmp_eq arg ApcupsdKillRunningCopy then
      some (WinAction.ApcupsdTerminate, 0)
    else if strcasecmp_eq arg ApcupsdQuiet then
      actOnWinargs env true rest
    else if strcasecmp_eq arg ApcupsdShowHelp then
      some (WinAction.ShowHelp, 0)
    else some (WinAction.BadOption arg, 1)

/-- The function `WinMain`, on the arguments that `GetArg` makes of the command
line: what it does and the value it returns, or `none` when it reaches its
closing brace without a `return`.  At the start `command_args` holds
"apcupsd" and `winargs` is empty. -/
def WinMain (env : WinEnv) (args : List String) : Option (WinAction × Int) :=
  let lists := splitArgs args (["apcupsd"], [])
  let winargs := if lists.2.length = 0 then [ApcupsdRunAsUserApp] else lists.2
  actOnWinargs env false winargs

/-! ## Theorems: UpsValue.h -/

theorem UpsValue.eq_iff (a b : UpsValue) : a.eq b = true ↔ a = b := by
  cases a <;> cases b <;> simp [UpsValue.eq, UpsValue._type]

theorem UpsValue.ne_iff (a b : UpsValue) : a.ne b = true ↔ a ≠ b := by
  simp [UpsValue.ne, ← UpsValue.eq_iff]

theorem amap.index_of_find {K V : Type} [DecidableEq K] (m : amap K V) (key : K)
    (dflt v : V) (h : m.find key = some v) : m.index key dflt = (v, m) := by
  unfold amap.find at h
  simp [amap.index, h]

theorem amap.contains_of_find {K V : Type} (m : amap K V) (key : K) (v : V)
    (h : m.find key = some v) : m.contains key = true := by
  unfold amap.find at h
  simp [amap.contains, h]

theorem amap.contains_eq_false {K V : Type} (m : amap K V) (key : K)
    (h : m.find key = none) : m.contains key = false := by
  unfold amap.find at h
  simp [amap.contains, h]

theorem amap.find_assign {K V : Type} [DecidableEq K] (m : amap K V) (key k : K)
    (val : V) : (m.assign key val).find k = if k = key then some val else m.find k := rfl

/-- What `update` does when `ci` has no stored value. -/
theorem UpsInfo.update_absent (s : UpsInfo) (ci : Int) (val : UpsValue)
    (h : s._values.find ci = none) :
    s.update ci val =
      { _values := s._values.assign ci val
        _notifs := List.append s._notifs [{ ci := ci, value := val }] } := by
  simp [UpsInfo.update, amap.contains_eq_false _ _ h, UpsInfo.notify, aqueue.enqueue]

/-- What `update` does when `ci` holds `cur`. -/
theorem UpsInfo.update_present (s : UpsInfo) (ci : Int) (val cur : UpsValue)
    (h : s._values.find ci = some cur) :
    s.update ci val =
      if cur.ne val then
        { _values := s._values.assign ci val
          _notifs := List.append s._notifs [{ ci := ci, value := val }] }
      else s := by
  simp only [UpsInfo.update, amap.contains_of_find _ _ _ h, amap.index_of_find _ _ _ _ h,
    UpsInfo.notify, aqueue.enqueue]
  simp

theorem UpsInfo.find_new (bp ci : Int) :
    (UpsInfo.new bp)._values.find ci = if ci = bp then some (UpsValue.signed 1) else none := rfl

theorem UpsInfo.notifs_new (bp : Int) : (UpsInfo.new bp)._notifs.toList = [] := rfl

/-- The queue after `update`, by what `ci` held before. -/
theorem UpsInfo.update_notifs (s : UpsInfo) (ci : Int) (v : UpsValue) :
    (s.update ci v)._notifs.toList =
      if s._values.find ci = some v then s._notifs.toList
      else s._notifs.toList ++ [{ ci := ci, value := v }] := by
  cases h : s._values.find ci with
  | none => simp [UpsInfo.update_absent s ci v h, aqueue.toList]
  | some cur =>
    rw [UpsInfo.update_present s ci v cur h]
    by_cases hc : cur = v
    · have : cur.ne v = false := by
        simpa using (not_congr (UpsValue.ne_iff cur v)).mpr (not_not.mpr hc)
      rw [this]
      simp [hc]
    · have : cur.ne v = true := (UpsValue.ne_iff cur v).mpr hc
      rw [this]
      simp [hc, aqueue.toList]

/-- The value under any key after `update`. -/
theorem UpsInfo.update_find (s : UpsInfo) (ci k : Int) (v : UpsValue) :
    (s.update ci v)._values.find k = if k = ci then some v else s._values.find k := by
  cases h : s._values.find ci with
  | none =>
    rw [UpsInfo.update_absent s ci v h]
    exact amap.find_assign _ _ _ _
  | some cur =>
    rw [UpsInfo.update_present s ci v cur h]
    by_cases hc : cur = v
    · have : cur.ne v = false := by
        simpa using (not_congr (UpsValue.ne_iff cur v)).mpr (not_not.mpr hc)
      simp only [this]
      by_cases hk : k = ci
      · simp [hk, h, hc]
      · simp [hk]
    · have : cur.ne v = true := (UpsValue.ne_iff cur v).mpr hc
      simp only [this]
      exact amap.find_assign _ _ _ _

/-- C1: for every repository state, every `ci` and every value `v`,
`update(ci, v)` appends exactly the one record `(ci, v)` to the end of the
queue when `ci` has no stored value or its stored value is unequal to `v` by
`operator!=`, and leaves the queue as it was otherwise. -/
theorem C1_update_enqueues_iff_changed (s : UpsInfo) (ci : Int) (v : UpsValue) :
    (s.update ci v)._notifs.toList =
      match s._values.find ci with
      | none => s._notifs.toList ++ [{ ci := ci, value := v }]
      | some cur =>
        if cur.ne v = true then s._notifs.toList ++ [{ ci := ci, value := v }]
        else s._notifs.toList := by
  cases h : s._values.find ci with
  | none => simp [UpsInfo.update_absent s ci v h, aqueue.toList]
  | some cur =>
    rw [UpsInfo.update_present s ci v cur h]
    cases hc : cur.ne v <;> simp [aqueue.toList, hc]

/-- C2, as the claim states it, fails: on a freshly constructed repository
(the enumerator `CI_BatteryPresent` taken to be 7) `update(CI_BatteryPresent, 1)`
twice enqueues no record at all, because the constructor already stored 1. -/
theorem C2_fresh_battery_present_enqueues_nothing :
    (((UpsInfo.new 7).update 7 (UpsValue.signed 1)).update 7
        (UpsValue.signed 1))._notifs.toList = [] := by
  decide

/-- C2, amended: `update(ci, v1)` twice enqueues exactly the one record
`(ci, v1)` when `ci` does not hold `v1` before the first call, and nothing when
it does; on a freshly constructed repository that is one record for every
`ci` and `v1` except `CI_BatteryPresent` with the integer 1, which enqueues
none. -/
theorem C2_same_value_twice (s : UpsInfo) (bp ci : Int) (v1 : UpsValue) :
    ((s.update ci v1).update ci v1)._notifs.toList =
        (if s._values.find ci = some v1 then s._notifs.toList
         else s._notifs.toList ++ [{ ci := ci, value := v1 }]) ∧
    (((UpsInfo.new bp).update ci v1).update ci v1)._notifs.toList =
        (if ci = bp ∧ v1 = UpsValue.signed 1 then []
         else [{ ci := ci, value := v1 }]) := by
  have key : ∀ t : UpsInfo, ((t.update ci v1).update ci v1)._notifs.toList =
      (if t._values.find ci = some v1 then t._notifs.toList
       else t._notifs.toList ++ [{ ci := ci, value := v1 }]) := by
    intro t
    rw [UpsInfo.update_notifs (t.update ci v1), UpsInfo.update_find, UpsInfo.update_notifs]
    simp
  refine ⟨key s, ?_⟩
  rw [key, UpsInfo.find_new, UpsInfo.notifs_new]
  by_cases hb : ci = bp
  · by_cases hv : v1 = UpsValue.signed 1
    · simp [hb, hv]
    · have hv2 : ¬ UpsValue.signed 1 = v1 := fun e => hv e.symm
      simp [hb, hv, hv2]
  · simp [hb]

/-- C3, as the claim states it, fails: on a freshly constructed repository
(`CI_BatteryPresent` taken to be 7) `update(CI_BatteryPresent, 1)` followed by
`update(CI_BatteryPresent, 0)` enqueues one record, not two, although
`1 != 0`. -/
theorem C3_fresh_battery_present_enqueues_one :
    (UpsValue.signed 1).ne (UpsValue.signed 0) = true ∧
    (((UpsInfo.new 7).update 7 (UpsValue.signed 1)).update 7
        (UpsValue.signed 0))._notifs.toList =
      [{ ci := 7, value := UpsValue.signed 0 }] := by
  decide

/-- C3, amended: for `v1 != v2`, `update(ci, v1)` followed by `update(ci, v2)`
enqueues `(ci, v1)` then `(ci, v2)` when `ci` does not hold `v1` before the
first call, and only `(ci, v2)` when it does; on a freshly constructed
repository that is the two records for every `ci` and `v1` except
`CI_BatteryPresent` with the integer 1, which enqueues `(ci, v2)` alone. -/
theorem C3_two_different_values (s : UpsInfo) (bp ci : Int) (v1 v2 : UpsValue)
    (hne : v1.ne v2 = true) :
    ((s.update ci v1).update ci v2)._notifs.toList =
        (if s._values.find ci = some v1 then
           s._notifs.toList ++ [{ ci := ci, value := v2 }]
         else s._notifs.toList ++ [{ ci := ci, value := v1 }, { ci := ci, value := v2 }]) ∧
    (((UpsInfo.new bp).update ci v1).update ci v2)._notifs.toList =
        (if ci = bp ∧ v1 = UpsValue.signed 1 then [{ ci := ci, value := v2 }]
         else [{ ci := ci, value := v1 }, { ci := ci, value := v2 }]) := by
  have hv : v1 ≠ v2 := (UpsValue.ne_iff v1 v2).mp hne
  have key : ∀ t : UpsInfo, ((t.update ci v1).update ci v2)._notifs.toList =
      (if t._values.find ci = some v1 then
         t._notifs.toList ++ [{ ci := ci, value := v2 }]
       else t._notifs.toList ++ [{ ci := ci, value := v1 }, { ci := ci, value := v2 }]) := by
    intro t
    rw [UpsInfo.update_notifs (t.update ci v1), UpsInfo.update_find, UpsInfo.update_notifs]
    by_cases h : t._values.find ci = some v1 <;> simp [h, hv]
  refine ⟨key s, ?_⟩
  rw [key, UpsInfo.find_new, UpsInfo.notifs_new]
  by_cases hb : ci = bp
  · by_cases h1 : v1 = UpsValue.signed 1
    · simp [hb, h1]
    · have h2 : ¬ UpsValue.signed 1 = v1 := fun e => h1 e.symm
      simp [hb, h1, h2]
  · simp [hb]

/-- C3, amended, at a concrete input: a repository in which key 3 is absent,
then `update(3, 5)` and `update(3, "low")`. -/
theorem C3_two_different_values_witness :
    (((UpsInfo.new 7).update 3 (UpsValue.signed 5)).update 3
        (UpsValue.string "low"))._notifs.toList =
      [{ ci := 3, value := UpsValue.signed 5 }, { ci := 3, value := UpsValue.string "low" }] := by
  have h := (C3_two_different_values (UpsInfo.new 7) 7 3 (UpsValue.signed 5)
    (UpsValue.string "low") (by decide)).1
  rw [h]
  decide

theorem UpsInfo.update_notifs_enqueuedBy (s : UpsInfo) (ci : Int) (v : UpsValue) :
    (s.update ci v)._notifs.toList = s._notifs.toList ++ s.enqueuedBy ci v := by
  unfold UpsInfo.enqueuedBy
  rw [UpsInfo.update_notifs]
  by_cases h : s._values.find ci = some v <;> simp [h]

theorem UpsInfo.updates_notifs (us : List (Int × UpsValue)) :
    ∀ s : UpsInfo, (s.updates us)._notifs.toList = s._notifs.toList ++ s.enqueued us := by
  induction us with
  | nil => intro s; simp [UpsInfo.updates, UpsInfo.enqueued]
  | cons u us ih =>
    intro s
    simp only [UpsInfo.updates, UpsInfo.enqueued]
    rw [ih, UpsInfo.update_notifs_enqueuedBy, List.append_assoc]

theorem UpsInfo.pends_empty (n : Nat) :
    ∀ (s : UpsInfo) (val : UpsDatum), s._notifs.toList = [] →
      (s.pends val n).1 = List.replicate n (false, val) := by
  induction n with
  | zero => intro s val _; rfl
  | succ n ih =>
    intro s val h
    have hq : s._notifs = ([] : List UpsDatum) := h
    have hp : s.pend val = (false, val, { s with _notifs := ([] : List UpsDatum) }) := by
      simp [UpsInfo.pend, aqueue.dequeue, hq]
    simp only [UpsInfo.pends, hp, List.replicate_succ]
    rw [ih { s with _notifs := ([] : List UpsDatum) } val rfl]

theorem UpsInfo.pends_queue (q : List UpsDatum) (n : Nat) :
    ∀ (s : UpsInfo) (val : UpsDatum), s._notifs.toList = q →
      (s.pends val (q.length + n)).1 =
        q.map (fun d => (true, d)) ++ List.replicate n (false, (q.getLast?).getD val) := by
  induction q with
  | nil =>
    intro s val h
    simpa using UpsInfo.pends_empty n s val h
  | cons d q ih =>
    intro s val h
    have hq : s._notifs = (d :: q : List UpsDatum) := h
    have hp : s.pend val = (true, d, { s with _notifs := (q : List UpsDatum) }) := by
      simp [UpsInfo.pend, aqueue.dequeue, hq]
    have hlen : (d :: q).length + n = (q.length + n) + 1 := by simp; omega
    rw [hlen]
    simp only [UpsInfo.pends, hp]
    rw [ih { s with _notifs := (q : List UpsDatum) } d rfl]
    cases q with
    | nil => simp
    | cons e q =>
      have hl : ∀ x : UpsDatum, ((e :: q).getLast?).getD x = (e :: q).getLast (by simp) := by
        intro x
        rw [List.getLast?_eq_getLast _ (by simp)]
        rfl
      simp [List.getLast?_cons_cons, hl]

/-- C4: after any sequence of `update` calls on a repository whose queue was
empty, the first calls of `pend` return `true` with the records in exactly the
order `update` enqueued them, each once, and every `pend` call after as many
records were dequeued as were enqueued returns `false` and leaves its argument
as it was (holding the last record delivered, or its initial content when none
was). -/
theorem C4_pend_fifo (s : UpsInfo) (us : List (Int × UpsValue)) (val : UpsDatum) (n : Nat)
    (hempty : s._notifs.toList = []) :
    ((s.updates us).pends val ((s.enqueued us).length + n)).1 =
      (s.enqueued us).map (fun d => (true, d)) ++
        List.replicate n (false, ((s.enqueued us).getLast?).getD val) := by
  apply UpsInfo.pends_queue
  rw [UpsInfo.updates_notifs, hempty, List.nil_append]

/-- C4 at a concrete input: a fresh repository, four `update` calls of which
one repeats a value, then five `pend` calls. -/
theorem C4_pend_fifo_witness :
    (((UpsInfo.new 7).updates
        [(3, UpsValue.signed 5), (3, UpsValue.signed 5), (4, UpsValue.string "x"),
         (3, UpsValue.signed 6)]).pends { ci := 0, value := UpsValue.signed 0 } 5).1 =
      [(true, { ci := 3, value := UpsValue.signed 5 }),
       (true, { ci := 4, value := UpsValue.string "x" }),
       (true, { ci := 3, value := UpsValue.signed 6 }),
       (false, { ci := 3, value := UpsValue.signed 6 }),
       (false, { ci := 3, value := UpsValue.signed 6 })] := by
  have h := C4_pend_fifo (UpsInfo.new 7)
    [(3, UpsValue.signed 5), (3, UpsValue.signed 5), (4, UpsValue.string "x"),
     (3, UpsValue.signed 6)] { ci := 0, value := UpsValue.signed 0 } 2 rfl
  have e : (UpsInfo.new 7).enqueued
      [(3, UpsValue.signed 5), (3, UpsValue.signed 5), (4, UpsValue.string "x"),
       (3, UpsValue.signed 6)] =
      [{ ci := 3, value := UpsValue.signed 5 }, { ci := 4, value := UpsValue.string "x" },
       { ci := 3, value := UpsValue.signed 6 }] := by decide
  rw [e] at h
  exact h

theorem UpsInfo.updates_find (ci : Int) (us : List (Int × UpsValue)) :
    ∀ s : UpsInfo, (s.updates us)._values.find ci =
      match UpsInfo.lastUpdate ci us with
      | some v => some v
      | none => s._values.find ci := by
  induction us with
  | nil => intro s; rfl
  | cons u us ih =>
    intro s
    simp only [UpsInfo.updates, UpsInfo.lastUpdate]
    rw [ih, UpsInfo.update_find]
    cases UpsInfo.lastUpdate ci us with
    | some v => rfl
    | none =>
      by_cases h : u.1 = ci
      · simp [h]
      · have h2 : ¬ ci = u.1 := fun e => h e.symm
        simp [h, h2]

/-- The result and the content of `val` after `get(ci, val)`, by what `ci`
holds. -/
theorem UpsInfo.get_eq (s : UpsInfo) (ci : Int) (val : UpsValue) :
    s.get ci val =
      match s._values.find ci with
      | some v => (true, v, s)
      | none => (false, val, s) := by
  cases h : s._values.find ci with
  | none => simp [UpsInfo.get, amap.contains_eq_false _ _ h]
  | some v =>
    simp [UpsInfo.get, amap.contains_of_find _ _ _ h, amap.index_of_find _ _ _ _ h]

theorem UpsInfo.avail_eq (s : UpsInfo) (ci : Int) :
    s.avail ci = (s._values.find ci).isSome := rfl

/-- C5, as the claim states it, fails: on a freshly constructed repository
(`CI_BatteryPresent` taken to be 7) with no `update` call at all,
`get(CI_BatteryPresent, out)` returns `true` and overwrites `out` with the
integer 1, although the sequence holds no `update(CI_BatteryPresent, .)` and
the characteristic was never set by one. -/
theorem C5_fresh_battery_present_get :
    UpsInfo.lastUpdate 7 [] = none ∧
    (((UpsInfo.new 7).updates []).get 7 (UpsValue.string "out")).1 = true ∧
    (((UpsInfo.new 7).updates []).get 7 (UpsValue.string "out")).2.1 = UpsValue.signed 1 := by
  decide

/-- C5, amended: after any sequence of `update` calls on a freshly constructed
repository, `get(ci, out)` returns `true` exactly when `avail(ci)` is `true`;
when the sequence holds an `update(ci, .)` it returns `true` and `out` is the
value passed to the most recent one; when it holds none, `get` returns `true`
with `out` the constructor's integer 1 for `ci = CI_BatteryPresent`, and
returns `false` leaving `out` as it was for every other `ci`. -/
theorem C5_get_after_updates (bp : Int) (us : List (Int × UpsValue)) (ci : Int)
    (out : UpsValue) :
    (((UpsInfo.new bp).updates us).get ci out).1 = ((UpsInfo.new bp).updates us).avail ci ∧
    ((((UpsInfo.new bp).updates us).get ci out).1,
      (((UpsInfo.new bp).updates us).get ci out).2.1) =
      (match UpsInfo.lastUpdate ci us with
       | some v => (true, v)
       | none => if ci = bp then (true, UpsValue.signed 1) else (false, out)) := by
  rw [UpsInfo.get_eq, UpsInfo.avail_eq, UpsInfo.updates_find, UpsInfo.find_new]
  cases UpsInfo.lastUpdate ci us with
  | some v => simp
  | none => by_cases h : ci = bp <;> simp [h]

/-- C6: for every repository state and every `ci`, `getbool(ci)` returns `false`
when `ci` is absent, `false` when `ci` holds the integer 0, and `true` when it
holds any integer other than 0. -/
theorem C6_getbool (s : UpsInfo) (ci : Int) :
    (s.avail ci = false → s.getbool ci = some false) ∧
    (s._values.find ci = some (UpsValue.signed 0) → s.getbool ci = some false) ∧
    (∀ n : Int, n ≠ 0 → s._values.find ci = some (UpsValue.signed n) →
      s.getbool ci = some true) := by
  refine ⟨?_, ?_, ?_⟩
  · intro h
    rw [UpsInfo.avail_eq] at h
    cases hf : s._values.find ci with
    | none => simp [UpsInfo.getbool, hf]
    | some v => simp [hf] at h
  · intro h
    simp [UpsInfo.getbool, h, UpsValue.lval]
  · intro n hn h
    simp [UpsInfo.getbool, h, UpsValue.lval, hn]

/-- C6 at concrete inputs: an absent key, a key set to 0 and a key set to -3. -/
theorem C6_getbool_witness :
    (UpsInfo.new 7).getbool 2 = some false ∧
    ((UpsInfo.new 7).update 2 (UpsValue.signed 0)).getbool 2 = some false ∧
    ((UpsInfo.new 7).update 2 (UpsValue.signed (-3))).getbool 2 = some true :=
  ⟨(C6_getbool (UpsInfo.new 7) 2).1 (by decide),
   (C6_getbool ((UpsInfo.new 7).update 2 (UpsValue.signed 0)) 2).2.1 (by decide),
   (C6_getbool ((UpsInfo.new 7).update 2 (UpsValue.signed (-3))) 2).2.2 (-3) (by decide)
     (by decide)⟩

/-- C7: immediately after construction, whatever number `CI_BatteryPresent`
is, the repository holds the integer 1 under it: `avail(CI_BatteryPresent)` is
`true` and `getbool(CI_BatteryPresent)` is `true`. -/
theorem C7_battery_present_by_default (bp : Int) :
    (UpsInfo.new bp)._values.find bp = some (UpsValue.signed 1) ∧
    (UpsInfo.new bp).avail bp = true ∧
    (UpsInfo.new bp).getbool bp = some true := by
  have h : (UpsInfo.new bp)._values.find bp = some (UpsValue.signed 1) := by
    rw [UpsInfo.find_new]; simp
  refine ⟨h, ?_, ?_⟩
  · rw [UpsInfo.avail_eq, h]; rfl
  · simp [UpsInfo.getbool, h, UpsValue.lval]

/-- C15: for all values `a` and `b`, `a == b` is `true` exactly when both are
integers with the same number or both are strings with the same text; an
integer and a string are never equal, whatever they hold; and `a != b` is the
negation of `a == b`. -/
theorem C15_equality (a b : UpsValue) :
    (a.eq b = true ↔
      (∃ m : Int, a = UpsValue.signed m ∧ b = UpsValue.signed m) ∨
      (∃ s : String, a = UpsValue.string s ∧ b = UpsValue.string s)) ∧
    (∀ (n : Int) (s : String),
      (UpsValue.signed n).eq (UpsValue.string s) = false ∧
      (UpsValue.string s).eq (UpsValue.signed n) = false) ∧
    a.ne b = !(a.eq b) := by
  refine ⟨?_, ?_, rfl⟩
  · rw [UpsValue.eq_iff]
    constructor
    · intro h
      subst h
      cases a with
      | signed m => exact Or.inl ⟨m, rfl, rfl⟩
      | string s => exact Or.inr ⟨s, rfl, rfl⟩
    · rintro (⟨m, h1, h2⟩ | ⟨s, h1, h2⟩) <;> rw [h1, h2]
  · intro n s
    constructor <;> simp [UpsValue.eq, UpsValue._type]

/-- The member `format()` returns the text of a string value as it is,
whatever `astring::format` does. -/
theorem UpsValue.format_string (f : String → Int → String) (s : String) :
    UpsValue.format f (UpsValue.string s) = s := rfl

/-- With `astring::format` handing its arguments to `printf`, `format()` of an
integer that fits in 32 bits is its decimal text. -/
theorem UpsValue.format_signed_of_int32 (n : Int) (h0 : -2147483648 ≤ n)
    (h1 : n ≤ 2147483647) :
    UpsValue.format (fun _ a => printf_d a) (UpsValue.signed n) = toString n := by
  have h : toInt32 n = n := by
    unfold toInt32
    omega
  simp [UpsValue.format, printf_d, h]

/-- C16, the code at the failing input: with `astring::format` handing its
arguments to `printf` and a 64-bit `signed long`, `format()` of the integer
2147483648 is the text "-2147483648", not its decimal text "2147483648": the
conversion `%d` is the one for `int`. -/
theorem C16_format_percent_d_truncates :
    UpsValue.format (fun _ a => printf_d a) (UpsValue.signed 2147483648) = "-2147483648" ∧
    toString (2147483648 : Int) = "2147483648" := by
  decide

/-- C17, as the claim states it, fails: `lval()` of a string value and
`strval()` of an integer value report no error, they call `abort()` (the `none`
of the embedding), which ends the process. -/
theorem C17_wrong_variant_aborts :
    (UpsValue.string "12").lval = none ∧ (UpsValue.signed 12).strval = none := by
  decide

/-- C17, amended: reading a value as the wrong variant (`lval()` of a string,
`strval()` of an integer) calls `abort()` and so returns nothing, in particular
no coerced value; reading it as its own variant returns the stored integer or
string unchanged. -/
theorem C17_variant_access (n : Int) (s : String) :
    (UpsValue.signed n).lval = some n ∧ (UpsValue.string s).strval = some s ∧
    (UpsValue.string s).lval = none ∧ (UpsValue.signed n).strval = none :=
  ⟨rfl, rfl, rfl, rfl⟩

/-- The reference overload of `get` on a key that is present returns its value
and leaves the object as it was. -/
theorem UpsInfo.getRef_present (s : UpsInfo) (ci : Int) (v : UpsValue)
    (h : s._values.find ci = some v) : s.getRef ci = (v, s) := by
  simp [UpsInfo.getRef, amap.index_of_find _ _ _ _ h]

/-- The reference overload of `get` on a key that is absent returns the
default-constructed value and leaves it stored under the key, the queue as it
was. -/
theorem UpsInfo.getRef_absent (s : UpsInfo) (ci : Int) (h : s._values.find ci = none) :
    (s.getRef ci).1 = UpsValue.signed 0 ∧
    (s.getRef ci).2._values.find ci = some (UpsValue.signed 0) ∧
    (∀ k : Int, k ≠ ci → (s.getRef ci).2._values.find k = s._values.find k) ∧
    (s.getRef ci).2._notifs = s._notifs := by
  unfold amap.find at h
  refine ⟨?_, ?_, ?_, ?_⟩
  · simp [UpsInfo.getRef, amap.index, h, UpsValue.default]
  · simp [UpsInfo.getRef, amap.index, h, UpsValue.default, amap.find]
  · intro k hk
    simp [UpsInfo.getRef, amap.index, h, amap.find, hk]
  · simp [UpsInfo.getRef]

/-- The parts of the frame claim that hold: `get(ci, val)` and `pend` leave the
mapping as it was, `get(ci, val)` leaves the queue as it was, and `update`
leaves the value of every other key and the records already queued. -/
theorem UpsInfo.frame_effects (s : UpsInfo) (ci : Int) (v : UpsValue) (d : UpsDatum) :
    (s.get ci v).2.2 = s ∧
    (s.pend d).2.2._values = s._values ∧
    (∀ k : Int, k ≠ ci → (s.update ci v)._values.find k = s._values.find k) ∧
    (∃ added : List UpsDatum, (s.update ci v)._notifs.toList = s._notifs.toList ++ added) := by
  refine ⟨?_, rfl, ?_, ?_⟩
  · rw [UpsInfo.get_eq]
    cases s._values.find ci <;> rfl
  · intro k hk
    rw [UpsInfo.update_find, if_neg hk]
  · exact ⟨s.enqueuedBy ci v, UpsInfo.update_notifs_enqueuedBy s ci v⟩

/-- C18, the code at the failing input: on a freshly constructed repository
(`CI_BatteryPresent` taken to be 7) key 3 is absent; the reference overload
`get(3)` returns the integer 0 and leaves it stored, so that `avail(3)` is
`true` afterwards although no `update` was made. -/
theorem C18_reference_get_inserts :
    (UpsInfo.new 7).avail 3 = false ∧
    ((UpsInfo.new 7).getRef 3).1 = UpsValue.signed 0 ∧
    ((UpsInfo.new 7).getRef 3).2.avail 3 = true ∧
    ((UpsInfo.new 7).getRef 3).2._notifs.toList = [] := by
  decide

/-- C21: on a freshly constructed repository, whatever number
`CI_BatteryPresent` is, the queue is empty and `pend` returns `false` leaving
its argument alone, although the integer 1 is stored under
`CI_BatteryPresent`; and `update(CI_BatteryPresent, true)`, whose argument
converts to the integer 1, enqueues nothing either, so that `pend` still
returns `false` after it. -/
theorem C21_fresh_queue_empty (bp : Int) (val : UpsDatum) :
    (UpsInfo.new bp)._notifs.toList = [] ∧
    ((UpsInfo.new bp).pend val).1 = false ∧ ((UpsInfo.new bp).pend val).2.1 = val ∧
    (UpsInfo.new bp)._values.find bp = some (UpsValue.signed 1) ∧
    ((UpsInfo.new bp).update bp (UpsValue.signed 1))._notifs.toList = [] ∧
    (((UpsInfo.new bp).update bp (UpsValue.signed 1)).pend val).1 = false := by
  have hfind : (UpsInfo.new bp)._values.find bp = some (UpsValue.signed 1) := by
    rw [UpsInfo.find_new]; simp
  have hupd : ((UpsInfo.new bp).update bp (UpsValue.signed 1))._notifs.toList = [] := by
    rw [UpsInfo.update_notifs, if_pos hfind]
    rfl
  refine ⟨rfl, rfl, rfl, hfind, hupd, ?_⟩
  have hq : ((UpsInfo.new bp).update bp (UpsValue.signed 1))._notifs = ([] : List UpsDatum) :=
    hupd
  simp [UpsInfo.pend, aqueue.dequeue, hq]

/-! ## Theorems: apclibnis.c -/

theorem read_fail_eq (w : Net) (count : Int) (e : Errno) (rest : List ReadEv)
    (h : w.inbound = ReadEv.fail e :: rest) :
    read w count = (-1, [], { w with inbound := rest, errno := e }) := by
  simp [read, h]

theorem read_data_eq (w : Net) (count : Int) (b : Byte) (bs : List Byte)
    (rest : List ReadEv) (h : w.inbound = ReadEv.data b bs :: rest) :
    read w count =
      ((((b :: bs).take count.toNat).length : Int), (b :: bs).take count.toNat,
        { w with inbound :=
            match (b :: bs).drop count.toNat with
            | [] => rest
            | c :: cs => ReadEv.data c cs :: rest }) := by
  simp [read, h]

theorem readable_after_data (l : List Byte) (rest : List ReadEv) :
    readable (match l with
      | [] => rest
      | c :: cs => ReadEv.data c cs :: rest) = l ++ readable rest := by
  cases l <;> simp [readable]

/-- On a stream that still has readable bytes, the `do ... while` of
`read_nbytes` ends with a `read` that delivers between 1 and `nleft` of them,
the next ones in order. -/
theorem read_retry_readable (evs : List ReadEv) :
    ∀ (w : Net) (fuel : Nat) (nleft : Int), w.inbound = evs → evs.length < fuel →
      0 < nleft → readable evs ≠ [] →
      ∃ (got : List Byte) (w1 : Net),
        read_retry fuel w nleft = some ((got.length : Int), got, w1) ∧
        0 < got.length ∧ (got.length : Int) ≤ nleft ∧
        got ++ readable w1.inbound = readable evs ∧
        w1.wire = w.wire ∧ w1.wsched = w.wsched ∧ w1.net_errmsg = w.net_errmsg := by
  induction evs with
  | nil => intro w fuel nleft _ _ _ hne; exact absurd rfl hne
  | cons ev evs ih =>
    intro w fuel nleft hw hfuel hpos hne
    obtain ⟨f, rfl⟩ : ∃ f, fuel = f + 1 := ⟨fuel - 1, by omega⟩
    cases ev with
    | data b bs =>
      refine ⟨(b :: bs).take nleft.toNat,
        { w with inbound :=
            match (b :: bs).drop nleft.toNat with
            | [] => evs
            | c :: cs => ReadEv.data c cs :: evs }, ?_, ?_, ?_, ?_, rfl, rfl, rfl⟩
      · have hlen : 0 < ((b :: bs).take nleft.toNat).length := by
          simp [List.length_take]; omega
        have hneq : ¬ ((((b :: bs).take nleft.toNat).length : Int) = -1) := by omega
        simp only [read_retry, read_data_eq w nleft b bs evs hw]
        rw [if_neg (fun h => hneq h.1)]
      · simp [List.length_take]; omega
      · simp [List.length_take]; omega
      · show List.take nleft.toNat (b :: bs) ++ readable (match (b :: bs).drop nleft.toNat with
            | [] => evs
            | c :: cs => ReadEv.data c cs :: evs) = readable (ReadEv.data b bs :: evs)
        rw [readable_after_data, ← List.append_assoc, List.take_append_drop]
        rfl
    | fail e =>
      have he : e = Errno.EINTR ∨ e = Errno.EAGAIN := by
        by_contra hcon
        exact hne (by simp [readable, hcon])
      have hne2 : readable evs ≠ [] := by
        simpa [readable, he] using hne
      have hlt : evs.length < f := by simp at hfuel; omega
      obtain ⟨got, w1, h1, h2, h3, h4, h5, h6, h7⟩ :=
        ih { w with inbound := evs, errno := e } f nleft rfl hlt hpos hne2
      refine ⟨got, w1, ?_, h2, h3, ?_, h5, h6, h7⟩
      · simp only [read_retry, read_fail_eq w nleft e evs hw]
        rw [if_pos ⟨trivial, he⟩]
        exact h1
      · simpa [readable, he] using h4

theorem store_nil (buf : List Byte) (ptr : Nat) : store buf ptr [] = buf := by
  simp [store]

theorem store_length (buf : List Byte) (ptr : Nat) (a : List Byte)
    (h : ptr + a.length ≤ buf.length) : (store buf ptr a).length = buf.length := by
  simp [store, List.length_take, List.length_drop]
  omega

theorem store_store (buf : List Byte) (ptr : Nat) (a b : List Byte) (h : ptr ≤ buf.length) :
    store (store buf ptr a) (ptr + a.length) b = store buf ptr (a ++ b) := by
  have hl : (List.take ptr buf ++ a).length = ptr + a.length := by
    simp [List.length_take]; omega
  have e1 : List.take (ptr + a.length) (List.take ptr buf ++ a ++
      List.drop (ptr + a.length) buf) = List.take ptr buf ++ a :=
    List.take_left' hl
  have e2 : List.drop (ptr + a.length + b.length) (List.take ptr buf ++ a ++
      List.drop (ptr + a.length) buf) = List.drop (ptr + (a.length + b.length)) buf := by
    rw [← hl, List.drop_append, List.drop_drop, hl]
    congr 1
    omega
  unfold store
  rw [e1, List.length_append, e2]
  simp only [List.append_assoc]

/-- Reading `nleft` bytes that the stream has: the loop of `read_nbytes` ends
within `nleft` rounds, returns `nbytes`, stores exactly the next `nleft`
readable bytes from offset `ptr` on, and leaves the rest of the stream. -/
theorem read_nbytes_loop_readable (fuel : Nat) :
    ∀ (w : Net) (buf : List Byte) (ptr : Nat) (nbytes nleft : Int),
      0 ≤ nleft → nleft.toNat ≤ fuel → nleft.toNat ≤ (readable w.inbound).length →
      ptr ≤ buf.length →
      ∃ w1 : Net,
        read_nbytes_loop fuel w buf ptr nbytes nleft =
          some (nbytes, store buf ptr ((readable w.inbound).take nleft.toNat), w1) ∧
        readable w1.inbound = (readable w.inbound).drop nleft.toNat ∧
        w1.wire = w.wire ∧ w1.wsched = w.wsched ∧ w1.net_errmsg = w.net_errmsg := by
  induction fuel with
  | zero =>
    intro w buf ptr nbytes nleft h0 hf _ _
    have hz : nleft = 0 := by omega
    subst hz
    exact ⟨w, by simp [read_nbytes_loop, store_nil], by simp, rfl, rfl, rfl⟩
  | succ f ih =>
    intro w buf ptr nbytes nleft h0 hf hr hp
    by_cases hz : nleft = 0
    · subst hz
      exact ⟨w, by simp [read_nbytes_loop, store_nil], by simp, rfl, rfl, rfl⟩
    · have hpos : 0 < nleft := by omega
      have hne : readable w.inbound ≠ [] := by
        intro hnil
        rw [hnil] at hr
        simp at hr
        omega
      obtain ⟨got, w1, h1, h2, h3, h4, h5, h6, h7⟩ :=
        read_retry_readable w.inbound w (w.inbound.length + 1) nleft rfl (by omega) hpos hne
      have hnl : 0 ≤ nleft - (got.length : Int) := by omega
      have hr1 : (nleft - (got.length : Int)).toNat ≤ (readable w1.inbound).length := by
        have : (readable w.inbound).length = got.length + (readable w1.inbound).length := by
          rw [← h4, List.length_append]
        omega
      obtain ⟨w2, k1, k2, k3, k4, k5⟩ :=
        ih w1 (store buf ptr got) (ptr + got.length) nbytes (nleft - (got.length : Int)) hnl
          (by omega) hr1 (by simp [store, List.length_take]; omega)
      refine ⟨w2, ?_, ?_, by rw [k3, h5], by rw [k4, h6], by rw [k5, h7]⟩
      · rw [read_nbytes_loop, if_pos hpos]
        simp only [h1]
        rw [if_neg (by omega), k1, store_store buf ptr got _ hp]
        have ht : (nleft.toNat) = got.length + (nleft - (got.length : Int)).toNat := by omega
        rw [← h4, ht, List.take_append]
      · rw [k2, ← h4]
        have ht : (nleft.toNat) = got.length + (nleft - (got.length : Int)).toNat := by omega
        rw [ht, List.drop_append]

theorem read_nil_eq (w : Net) (count : Int) (h : w.inbound = []) :
    read w count = (0, [], w) := by
  simp [read, h]

/-- The `do ... while` of `read_nbytes` never runs out of fuel when it is given
more calls than the stream has events: it ends with the `read` that did not
ask for a retry. -/
theorem read_retry_total (evs : List ReadEv) :
    ∀ (w : Net) (fuel : Nat) (nleft : Int), w.inbound = evs → evs.length < fuel →
      ∃ r : Int × List Byte × Net, read_retry fuel w nleft = some r := by
  induction evs with
  | nil =>
    intro w fuel nleft hw hfuel
    obtain ⟨f, rfl⟩ : ∃ f, fuel = f + 1 := ⟨fuel - 1, by simp at hfuel; omega⟩
    refine ⟨(0, [], w), ?_⟩
    simp [read_retry, read_nil_eq w nleft hw]
  | cons ev evs ih =>
    intro w fuel nleft hw hfuel
    obtain ⟨f, rfl⟩ : ∃ f, fuel = f + 1 := ⟨fuel - 1, by omega⟩
    cases ev with
    | data b bs =>
      have hneq : ¬ ((((b :: bs).take nleft.toNat).length : Int) = -1) := by omega
      simp only [read_retry, read_data_eq w nleft b bs evs hw]
      rw [if_neg (fun h => hneq h.1)]
      exact ⟨_, rfl⟩
    | fail e =>
      have hlt : evs.length < f := by simp at hfuel; omega
      simp only [read_retry, read_fail_eq w nleft e evs hw]
      by_cases he : e = Errno.EINTR ∨ e = Errno.EAGAIN
      · rw [if_pos ⟨trivial, he⟩]
        exact ih { w with inbound := evs, errno := e } f nleft rfl hlt
      · rw [if_neg (fun h => he h.2)]
        exact ⟨_, rfl⟩

/-- The loop of `read_nbytes` returns within `nleft` rounds on every stream. -/
theorem read_nbytes_loop_total (fuel : Nat) :
    ∀ (w : Net) (buf : List Byte) (ptr : Nat) (nbytes nleft : Int), nleft.toNat ≤ fuel →
      ∃ r : Int × List Byte × Net, read_nbytes_loop fuel w buf ptr nbytes nleft = some r := by
  induction fuel with
  | zero =>
    intro w buf ptr nbytes nleft hf
    rw [read_nbytes_loop, if_neg (by omega)]
    exact ⟨_, rfl⟩
  | succ f ih =>
    intro w buf ptr nbytes nleft hf
    by_cases hpos : nleft > 0
    · obtain ⟨⟨nread, got, w1⟩, hr⟩ :=
        read_retry_total w.inbound w (w.inbound.length + 1) nleft rfl (by omega)
      rw [read_nbytes_loop, if_pos hpos]
      simp only [hr]
      by_cases hn : nread ≤ 0
      · rw [if_pos hn]
        exact ⟨_, rfl⟩
      · rw [if_neg hn]
        exact ih w1 _ _ nbytes (nleft - nread) (by omega)
    · rw [read_nbytes_loop, if_neg hpos]
      exact ⟨_, rfl⟩

/-- The function `read_nbytes` returns on every stream, for every count. -/
theorem read_nbytes_total (w : Net) (buf : List Byte) (nbytes : Int) :
    ∃ r : Int × List Byte × Net, read_nbytes w buf nbytes = some r :=
  read_nbytes_loop_total nbytes.toNat _ buf 0 nbytes nbytes (Nat.le_refl _)

/-- The loop of `write_nbytes` returns within `nleft` rounds, however the
`write` calls go. -/
theorem write_nbytes_loop_total (fuel : Nat) :
    ∀ (w : Net) (ptr : List Byte) (nbytes nleft : Int), nleft.toNat ≤ fuel →
      ∃ r : Int × Net, write_nbytes_loop fuel w ptr nbytes nleft = some r := by
  induction fuel with
  | zero =>
    intro w ptr nbytes nleft hf
    rw [write_nbytes_loop, if_neg (by omega)]
    exact ⟨_, rfl⟩
  | succ f ih =>
    intro w ptr nbytes nleft hf
    by_cases hpos : nleft > 0
    · rw [write_nbytes_loop, if_pos hpos]
      by_cases hn : (write w ptr nleft).1 ≤ 0
      · simp only [if_pos hn]
        exact ⟨_, rfl⟩
      · simp only [if_neg hn]
        exact ih _ _ nbytes _ (by omega)
    · rw [write_nbytes_loop, if_neg hpos]
      exact ⟨_, rfl⟩

/-- The function `write_nbytes` returns, however the `write` calls go. -/
theorem write_nbytes_total (w : Net) (ptr : List Byte) (nbytes : Int) :
    ∃ r : Int × Net, write_nbytes w ptr nbytes = some r :=
  write_nbytes_loop_total nbytes.toNat w ptr nbytes nbytes (Nat.le_refl _)

/-- The function `net_recv` returns on every stream. -/
theorem net_recv_total (w : Net) (buff : List Byte) (maxlen : Int) :
    ∃ r : Int × List Byte × Net, net_recv w buff maxlen = some r := by
  obtain ⟨⟨n1, mem, w1⟩, h1⟩ := read_nbytes_total w [0, 0] 2
  unfold net_recv
  simp only [h1]
  split_ifs
  · exact ⟨_, rfl⟩
  · exact ⟨_, rfl⟩
  · exact ⟨_, rfl⟩
  · exact ⟨_, rfl⟩
  · obtain ⟨⟨n2, buff1, w2⟩, h2⟩ := read_nbytes_total w1 buff (toShort (ntohs mem))
    simp only [h2]
    split_ifs <;> exact ⟨_, rfl⟩

/-- The function `net_send` returns, however the `write` calls go. -/
theorem net_send_total (w : Net) (buff : List Byte) (len : Int) :
    ∃ r : Int × Net, net_send w buff len = some r := by
  obtain ⟨⟨rc1, w1⟩, h1⟩ := write_nbytes_total w (htons (toShort len)) 2
  unfold net_send
  simp only [h1]
  split_ifs
  · exact ⟨_, rfl⟩
  · obtain ⟨⟨rc2, w2⟩, h2⟩ := write_nbytes_total w1 buff len
    simp only [h2]
    split_ifs <;> exact ⟨_, rfl⟩

/-- Reading `nbytes ≥ 0` bytes that the stream has: `read_nbytes` returns
`nbytes` with the next `nbytes` readable bytes at the start of the memory. -/
theorem read_nbytes_readable (w : Net) (buf : List Byte) (nbytes : Int) (h0 : 0 ≤ nbytes)
    (hr : nbytes.toNat ≤ (readable w.inbound).length) :
    ∃ w1 : Net,
      read_nbytes w buf nbytes =
        some (nbytes, store buf 0 ((readable w.inbound).take nbytes.toNat), w1) ∧
      readable w1.inbound = (readable w.inbound).drop nbytes.toNat ∧
      w1.wire = w.wire ∧ w1.wsched = w.wsched ∧ w1.net_errmsg = w.net_errmsg :=
  read_nbytes_loop_readable nbytes.toNat { w with errno := Errno.zero } buf 0 nbytes nbytes
    h0 (Nat.le_refl _) hr (Nat.zero_le _)

/-- With `nbytes ≤ 0` the loop of `read_nbytes` is not entered: it returns 0
and touches neither the memory nor the stream. -/
theorem read_nbytes_nonpos (w : Net) (buf : List Byte) (nbytes : Int) (h : nbytes ≤ 0) :
    read_nbytes w buf nbytes = some (0, buf, { w with errno := Errno.zero }) := by
  have hz : nbytes.toNat = 0 := by omega
  unfold read_nbytes
  rw [hz, read_nbytes_loop, if_neg (by omega)]
  simp

/-- One `write` call that makes progress takes between 1 and `count` bytes, the
next ones in order. -/
theorem write_progress (w : Net) (ptr : List Byte) (count : Int) (hc : 0 < count)
    (hp : progress w.wsched = true) :
    ∃ (n : Nat) (w1 : Net),
      write w ptr count = ((n : Int), w1) ∧ 0 < n ∧ n ≤ count.toNat ∧
      w1.wire = w.wire ++ ptr.take n ∧ progress w1.wsched = true ∧
      w1.inbound = w.inbound ∧ w1.net_errmsg = w.net_errmsg := by
  cases hs : w.wsched with
  | nil =>
    refine ⟨count.toNat, { w with wire := w.wire ++ ptr.take count.toNat }, ?_, by omega,
      Nat.le_refl _, rfl, ?_, rfl, rfl⟩
    · have : ((count.toNat : Nat) : Int) = count := by omega
      simp [write, hs, this]
    · show progress w.wsched = true
      exact hp
  | cons ev rest =>
    cases ev with
    | fail e => rw [hs] at hp; simp [progress] at hp
    | accept k =>
      rw [hs] at hp
      simp only [progress, Bool.and_eq_true, decide_eq_true_eq] at hp
      refine ⟨min k count.toNat,
        { w with wsched := rest, wire := w.wire ++ ptr.take (min k count.toNat) }, ?_, ?_,
        Nat.min_le_right _ _, rfl, hp.2, rfl, rfl⟩
      · simp [write, hs]
      · have : 0 < count.toNat := by omega
        omega

/-- Writing `nleft` bytes when every `write` makes progress: the loop of
`write_nbytes` ends within `nleft` rounds, returns `nbytes` and has put
exactly the next `nleft` bytes on the wire. -/
theorem write_nbytes_loop_progress (fuel : Nat) :
    ∀ (w : Net) (ptr : List Byte) (nbytes nleft : Int),
      0 ≤ nleft → nleft.toNat ≤ fuel → progress w.wsched = true →
      ∃ w1 : Net,
        write_nbytes_loop fuel w ptr nbytes nleft = some (nbytes, w1) ∧
        w1.wire = w.wire ++ ptr.take nleft.toNat ∧ progress w1.wsched = true ∧
        w1.inbound = w.inbound ∧ w1.net_errmsg = w.net_errmsg := by
  induction fuel with
  | zero =>
    intro w ptr nbytes nleft h0 hf hp
    have hz : nleft = 0 := by omega
    subst hz
    exact ⟨w, by simp [write_nbytes_loop], by simp, hp, rfl, rfl⟩
  | succ f ih =>
    intro w ptr nbytes nleft h0 hf hp
    by_cases hz : nleft = 0
    · subst hz
      exact ⟨w, by simp [write_nbytes_loop], by simp, hp, rfl, rfl⟩
    · have hpos : 0 < nleft := by omega
      obtain ⟨n, w1, h1, h2, h3, h4, h5, h6, h7⟩ := write_progress w ptr nleft hpos hp
      obtain ⟨w2, k1, k2, k3, k4, k5⟩ :=
        ih w1 (ptr.drop n) nbytes (nleft - (n : Int)) (by omega) (by omega) h5
      refine ⟨w2, ?_, ?_, k3, by rw [k4, h6], by rw [k5, h7]⟩
      · rw [write_nbytes_loop, if_pos hpos]
        simp only [h1]
        rw [if_neg (by omega)]
        simpa using k1
      · rw [k2, h4, List.append_assoc]
        have ht : nleft.toNat = n + (nleft - (n : Int)).toNat := by omega
        rw [ht, List.take_add]

/-- Writing `nbytes ≥ 0` bytes when every `write` makes progress. -/
theorem write_nbytes_progress (w : Net) (ptr : List Byte) (nbytes : Int) (h0 : 0 ≤ nbytes)
    (hp : progress w.wsched = true) :
    ∃ w1 : Net,
      write_nbytes w ptr nbytes = some (nbytes, w1) ∧
      w1.wire = w.wire ++ ptr.take nbytes.toNat ∧ progress w1.wsched = true ∧
      w1.inbound = w.inbound ∧ w1.net_errmsg = w.net_errmsg :=
  write_nbytes_loop_progress nbytes.toNat w ptr nbytes nbytes h0 (Nat.le_refl _) hp

theorem toShort_of_small (x : Int) (h0 : 0 ≤ x) (h1 : x ≤ 32767) : toShort x = x := by
  unfold toShort
  omega

/-- The length prefix of a length between 0 and 32767: high byte, low byte. -/
theorem htons_of_small (x : Int) (h0 : 0 ≤ x) (h1 : x ≤ 32767) :
    ∃ hi lo : Byte, htons (toShort x) = [hi, lo] ∧
      (hi.val : Int) = x / 256 ∧ (lo.val : Int) = x % 256 := by
  refine ⟨Fin.ofNat ((x % 65536) / 256).toNat, Fin.ofNat ((x % 65536) % 256).toNat, ?_, ?_, ?_⟩
  · rw [toShort_of_small x h0 h1, htons]
  · simp only [Fin.ofNat, Fin.val_mk]
    omega
  · simp only [Fin.ofNat, Fin.val_mk]
    omega

/-- What `net_send` does with a payload of at most 32767 bytes when every
`write` makes progress. -/
theorem net_send_progress (w : Net) (payload : List Byte) (hlen : payload.length ≤ 32767)
    (hp : progress w.wsched = true) :
    ∃ (w1 : Net) (hi lo : Byte),
      net_send w payload (payload.length : Int) = some ((payload.length : Int), w1) ∧
      w1.wire = w.wire ++ hi :: lo :: payload ∧
      hi.val = payload.length / 256 ∧ lo.val = payload.length % 256 := by
  obtain ⟨hi, lo, e, ehi, elo⟩ :=
    htons_of_small (payload.length : Int) (by omega) (by omega)
  obtain ⟨w1, a1, a2, a3, _, _⟩ := write_nbytes_progress w [hi, lo] 2 (by omega) hp
  obtain ⟨w2, b1, b2, _, _, _⟩ :=
    write_nbytes_progress w1 payload (payload.length : Int) (by omega) a3
  refine ⟨w2, hi, lo, ?_, ?_, by omega, by omega⟩
  · simp [net_send, e, a1, b1]
  · rw [b2, a2]
    simp

/-- C9: for every payload of at most 32767 bytes, when every underlying
`write` takes at least one byte (and maybe fewer than offered), `net_send`
returns the payload length `n` and has put on the stream exactly the two bytes
`n / 256`, `n mod 256` followed by the payload, after what was there before. -/
theorem C9_net_send_wire_format (w : Net) (payload : List Byte)
    (hlen : payload.length ≤ 32767) (hp : progress w.wsched = true) :
    ∃ (w1 : Net) (hi lo : Byte),
      net_send w payload (payload.length : Int) = some ((payload.length : Int), w1) ∧
      w1.wire = w.wire ++ hi :: lo :: payload ∧
      hi.val = payload.length / 256 ∧ lo.val = payload.length % 256 :=
  net_send_progress w payload hlen hp

/-- C9 at a concrete input: a 3-byte payload sent through writes that take 1,
3 and then 2 bytes at most. -/
theorem C9_net_send_wire_format_witness :
    progress [WriteEv.accept 1, WriteEv.accept 3, WriteEv.accept 2] = true ∧
    ∃ (w1 : Net) (hi lo : Byte),
      net_send (Net.start [] [WriteEv.accept 1, WriteEv.accept 3, WriteEv.accept 2])
        [7, 8, 9] 3 = some (3, w1) ∧
      w1.wire = [] ++ hi :: lo :: [7, 8, 9] ∧ hi.val = 3 / 256 ∧ lo.val = 3 % 256 :=
  ⟨by decide,
   C9_net_send_wire_format
     (Net.start [] [WriteEv.accept 1, WriteEv.accept 3, WriteEv.accept 2]) [7, 8, 9]
     (by decide) (by decide)⟩

/-- The first step of `net_recv` on a stream that has two readable bytes: the
prefix read returns 2 with those bytes and leaves what follows them. -/
theorem read_length_field (w : Net) (b0 b1 : Byte) (rest : List Byte)
    (hs : readable w.inbound = b0 :: b1 :: rest) :
    ∃ w1 : Net, read_nbytes w [0, 0] 2 = some (2, [b0, b1], w1) ∧
      readable w1.inbound = rest ∧ w1.wire = w.wire ∧ w1.wsched = w.wsched := by
  obtain ⟨w1, h1, h2, h3, h4, _⟩ :=
    read_nbytes_readable w [0, 0] 2 (by omega) (by rw [hs]; simp)
  refine ⟨w1, ?_, ?_, h3, h4⟩
  · rw [h1, hs]
    simp [store]
  · rw [h2, hs]
    simp

/-- The function `net_recv` on a stream whose prefix declares a length between
1 and `maxlen` and which has that many bytes after it: the length is returned,
the payload is at the start of `buff`, and the stream is left after it. -/
theorem net_recv_frame (w : Net) (buff : List Byte) (maxlen : Int) (b0 b1 : Byte)
    (rest : List Byte) (hs : readable w.inbound = b0 :: b1 :: rest)
    (hpos : 0 < toShort (ntohs [b0, b1])) (hmax : toShort (ntohs [b0, b1]) ≤ maxlen)
    (hrest : (toShort (ntohs [b0, b1])).toNat ≤ rest.length) :
    ∃ w2 : Net,
      net_recv w buff maxlen =
        some (toShort (ntohs [b0, b1]),
          store buff 0 (rest.take (toShort (ntohs [b0, b1])).toNat), w2) ∧
      readable w2.inbound = rest.drop (toShort (ntohs [b0, b1])).toNat := by
  obtain ⟨w1, h1, h2, _, _⟩ := read_length_field w b0 b1 rest hs
  obtain ⟨w2, k1, k2, _, _, _⟩ :=
    read_nbytes_readable w1 buff (toShort (ntohs [b0, b1])) (by omega) (by rw [h2]; exact hrest)
  refine ⟨w2, ?_, by rw [k2, h2]⟩
  unfold net_recv
  simp only [h1]
  rw [if_neg (by omega), if_neg (by simp), if_neg (by omega), if_neg (by omega)]
  simp only [k1, h2]
  rw [if_neg (by omega), if_neg (by simp)]

/-- The function `net_recv` on a stream whose prefix is two zero bytes: it
returns 0, leaves `buff` alone and consumes the prefix only. -/
theorem net_recv_zero (w : Net) (buff : List Byte) (maxlen : Int) (b0 b1 : Byte)
    (rest : List Byte) (hs : readable w.inbound = b0 :: b1 :: rest)
    (hz : toShort (ntohs [b0, b1]) = 0) (hmax : 0 ≤ maxlen) :
    ∃ w1 : Net, net_recv w buff maxlen = some (0, buff, w1) ∧ readable w1.inbound = rest := by
  obtain ⟨w1, h1, h2, _, _⟩ := read_length_field w b0 b1 rest hs
  refine ⟨w1, ?_, h2⟩
  unfold net_recv
  simp only [h1]
  rw [if_neg (by omega), if_neg (by simp), if_neg (by omega), if_pos hz]

/-- C10: for every `maxlen` (negative ones included, so for every
`maxlen ≥ 0`) and every stream that begins with two readable bytes whose value
as a big-endian 16-bit number exceeds `maxlen`, `net_recv` returns -2, leaves
`buff` alone, and leaves on the stream everything that follows the two
bytes. -/
theorem C10_net_recv_oversized (w : Net) (buff : List Byte) (maxlen : Int) (b0 b1 : Byte)
    (rest : List Byte)
    (hs : readable w.inbound = b0 :: b1 :: rest)
    (hbig : maxlen < (b0.val : Int) * 256 + (b1.val : Int)) :
    ∃ w1 : Net, net_recv w buff maxlen = some (-2, buff, w1) ∧ readable w1.inbound = rest := by
  obtain ⟨w1, h1, h2, _, _⟩ := read_length_field w b0 b1 rest hs
  have hb0 := b0.isLt
  have hb1 := b1.isLt
  have hn : ntohs [b0, b1] = (b0.val : Int) * 256 + (b1.val : Int) := rfl
  by_cases hgt : toShort (ntohs [b0, b1]) > maxlen
  · refine ⟨{ w1 with net_errmsg := some "net_recv: record length too large\n" }, ?_, h2⟩
    unfold net_recv
    simp only [h1]
    rw [if_neg (by omega), if_neg (by simp), if_pos hgt]
  · have hneg : toShort (ntohs [b0, b1]) < 0 := by
      rw [hn] at hgt ⊢
      unfold toShort at hgt ⊢
      omega
    refine ⟨{ { w1 with errno := Errno.zero } with
      net_errmsg := some "net_recv: read_nbytes error\n" }, ?_, h2⟩
    unfold net_recv
    simp only [h1]
    rw [if_neg (by omega), if_neg (by simp), if_neg hgt, if_neg (by omega)]
    simp only [read_nbytes_nonpos w1 buff _ (le_of_lt hneg)]
    rw [if_pos (le_refl _)]

/-- C10 at concrete inputs: a prefix that declares 9 bytes against `maxlen = 4`,
delivered one byte at a time with an interruption in between. -/
theorem C10_net_recv_oversized_witness :
    ∃ w1 : Net,
      net_recv (Net.start [ReadEv.data 0 [], ReadEv.fail Errno.EINTR, ReadEv.data 9 [1, 2]] [])
        [5, 5, 5, 5] 4 = some (-2, [5, 5, 5, 5], w1) ∧
      readable w1.inbound = [1, 2] :=
  C10_net_recv_oversized
    (Net.start [ReadEv.data 0 [], ReadEv.fail Errno.EINTR, ReadEv.data 9 [1, 2]] [])
    [5, 5, 5, 5] 4 0 9 [1, 2] (by decide) (by decide)

/-- C8: round trip.  For every payload of `n ≤ 32767` bytes and every
`maxlen ≥ n`: when every `write` of the sender takes at least one byte, and the
receiver's stream carries exactly the bytes that `net_send` added to the wire
(split into reads in any way, with any interruptions), `net_send` returns `n`
and `net_recv(maxlen)` returns `n` with exactly the payload in the first `n`
bytes of `buff`, the bytes of `buff` after them untouched, and nothing left on
the stream; for `n = 0` it returns 0 and `buff` is as it was. -/
theorem C8_round_trip (ws wr : Net) (payload buff : List Byte) (maxlen : Int)
    (hlen : payload.length ≤ 32767) (hmax : (payload.length : Int) ≤ maxlen)
    (hp : progress ws.wsched = true)
    (hsame : (net_send ws payload (payload.length : Int)).map (fun r => r.2.wire) =
      some (ws.wire ++ readable wr.inbound)) :
    ∃ ws1 wr1 : Net,
      net_send ws payload (payload.length : Int) = some ((payload.length : Int), ws1) ∧
      net_recv wr buff maxlen =
        some ((payload.length : Int), payload ++ buff.drop payload.length, wr1) ∧
      readable wr1.inbound = [] := by
  obtain ⟨ws1, hi, lo, h1, h2, h3, h4⟩ := net_send_progress ws payload hlen hp
  have hs : readable wr.inbound = hi :: lo :: payload := by
    rw [h1] at hsame
    simp only [Option.map_some', h2, Option.some.injEq] at hsame
    exact (List.append_cancel_left hsame).symm
  have hhi := hi.isLt
  have hlo := lo.isLt
  have hn : toShort (ntohs [hi, lo]) = (payload.length : Int) := by
    have e : ntohs [hi, lo] = (hi.val : Int) * 256 + (lo.val : Int) := rfl
    rw [e, h3, h4]
    unfold toShort
    omega
  by_cases hz : payload.length = 0
  · obtain ⟨wr1, k1, k2⟩ :=
      net_recv_zero wr buff maxlen hi lo payload hs (by rw [hn, hz]; rfl) (by omega)
    have hnil : payload = [] := List.eq_nil_of_length_eq_zero hz
    refine ⟨ws1, wr1, h1, ?_, by rw [k2, hnil]⟩
    rw [k1, hnil]
    rfl
  · obtain ⟨wr1, k1, k2⟩ :=
      net_recv_frame wr buff maxlen hi lo payload hs (by rw [hn]; omega) (by rw [hn]; exact hmax)
        (by rw [hn]; simp)
    refine ⟨ws1, wr1, h1, ?_, ?_⟩
    · rw [k1, hn]
      simp [store]
    · rw [k2, hn]
      simp

/-- C8 at a concrete input: a 3-byte payload whose frame is written in pieces
of 1, 1 and 3 bytes and read back by reads of 1, 1, 1 and 2 bytes with two
interruptions, into a 4-byte buffer. -/
theorem C8_round_trip_witness :
    ∃ ws1 wr1 : Net,
      net_send (Net.start [] [WriteEv.accept 1, WriteEv.accept 3]) [7, 8, 9] 3 =
        some (3, ws1) ∧
      net_recv (Net.start [ReadEv.data 0 [], ReadEv.fail Errno.EINTR, ReadEv.data 3 [7],
          ReadEv.fail Errno.EAGAIN, ReadEv.data 8 [9]] []) [5, 5, 5, 5] 4 =
        some (3, [7, 8, 9] ++ [5], wr1) ∧
      readable wr1.inbound = [] :=
  C8_round_trip (Net.start [] [WriteEv.accept 1, WriteEv.accept 3])
    (Net.start [ReadEv.data 0 [], ReadEv.fail Errno.EINTR, ReadEv.data 3 [7],
      ReadEv.fail Errno.EAGAIN, ReadEv.data 8 [9]] []) [7, 8, 9] [5, 5, 5, 5] 4
    (by decide) (by decide) (by decide) (by decide)

/-- On a stream with no readable byte left, the `do ... while` of `read_nbytes`
ends with a `read` that returns 0 (end of file) or -1 (an error other than
`EINTR` and `EAGAIN`) and delivers nothing. -/
theorem read_retry_stuck (evs : List ReadEv) :
    ∀ (w : Net) (fuel : Nat) (nleft : Int), w.inbound = evs → evs.length < fuel →
      readable evs = [] →
      ∃ (rc : Int) (w1 : Net), read_retry fuel w nleft = some (rc, [], w1) ∧
        (rc = 0 ∨ rc = -1) ∧
        w1.wire = w.wire ∧ w1.wsched = w.wsched ∧ w1.net_errmsg = w.net_errmsg := by
  induction evs with
  | nil =>
    intro w fuel nleft hw hfuel _
    obtain ⟨f, rfl⟩ : ∃ f, fuel = f + 1 := ⟨fuel - 1, by simp at hfuel; omega⟩
    refine ⟨0, w, ?_, Or.inl rfl, rfl, rfl, rfl⟩
    simp [read_retry, read_nil_eq w nleft hw]
  | cons ev evs ih =>
    intro w fuel nleft hw hfuel hr
    obtain ⟨f, rfl⟩ : ∃ f, fuel = f + 1 := ⟨fuel - 1, by omega⟩
    cases ev with
    | data b bs => simp [readable] at hr
    | fail e =>
      have hlt : evs.length < f := by simp at hfuel; omega
      simp only [read_retry, read_fail_eq w nleft e evs hw]
      by_cases he : e = Errno.EINTR ∨ e = Errno.EAGAIN
      · rw [if_pos ⟨trivial, he⟩]
        have hr2 : readable evs = [] := by simpa [readable, he] using hr
        obtain ⟨rc, w1, h1, h2, h3, h4, h5⟩ :=
          ih { w with inbound := evs, errno := e } f nleft rfl hlt hr2
        exact ⟨rc, w1, h1, h2, h3, h4, h5⟩
      · rw [if_neg (fun h => he h.2)]
        exact ⟨-1, { w with inbound := evs, errno := e }, rfl, Or.inr rfl, rfl, rfl, rfl⟩

/-- Reading more bytes than the stream has: the loop of `read_nbytes` stores
every readable byte and then returns 0 or -1. -/
theorem read_nbytes_loop_short (fuel : Nat) :
    ∀ (w : Net) (buf : List Byte) (ptr : Nat) (nbytes nleft : Int),
      nleft.toNat ≤ fuel → (readable w.inbound).length < nleft.toNat → ptr ≤ buf.length →
      ∃ (rc : Int) (w1 : Net),
        read_nbytes_loop fuel w buf ptr nbytes nleft =
          some (rc, store buf ptr (readable w.inbound), w1) ∧
        (rc = 0 ∨ rc = -1) ∧
        w1.wire = w.wire ∧ w1.wsched = w.wsched ∧ w1.net_errmsg = w.net_errmsg := by
  induction fuel with
  | zero => intro w buf ptr nbytes nleft hf hr _; omega
  | succ f ih =>
    intro w buf ptr nbytes nleft hf hr hp
    have hpos : 0 < nleft := by omega
    by_cases hnil : readable w.inbound = []
    · obtain ⟨rc, w1, h1, h2, h3, h4, h5⟩ :=
        read_retry_stuck w.inbound w (w.inbound.length + 1) nleft rfl (by omega) hnil
      refine ⟨rc, { w1 with net_errno := w1.errno }, ?_, h2, h3, h4, h5⟩
      rw [read_nbytes_loop, if_pos hpos]
      simp only [h1]
      rw [if_pos (by omega), hnil, store_nil]
    · obtain ⟨got, w1, h1, h2, h3, h4, h5, h6, h7⟩ :=
        read_retry_readable w.inbound w (w.inbound.length + 1) nleft rfl (by omega) hpos hnil
      have hlen : (readable w.inbound).length = got.length + (readable w1.inbound).length := by
        rw [← h4, List.length_append]
      obtain ⟨rc, w2, k1, k2, k3, k4, k5⟩ :=
        ih w1 (store buf ptr got) (ptr + got.length) nbytes (nleft - (got.length : Int))
          (by omega) (by omega) (by simp [store, List.length_take]; omega)
      refine ⟨rc, w2, ?_, k2, by rw [k3, h5], by rw [k4, h6], by rw [k5, h7]⟩
      rw [read_nbytes_loop, if_pos hpos]
      simp only [h1]
      rw [if_neg (by omega), k1, store_store buf ptr got _ hp, h4]

/-- Reading more bytes than the stream has: `read_nbytes` stores every
readable byte at the start of the memory and returns 0 or -1. -/
theorem read_nbytes_short (w : Net) (buf : List Byte) (nbytes : Int)
    (hr : (readable w.inbound).length < nbytes.toNat) :
    ∃ (rc : Int) (w1 : Net),
      read_nbytes w buf nbytes = some (rc, store buf 0 (readable w.inbound), w1) ∧
      (rc = 0 ∨ rc = -1) ∧
      w1.wire = w.wire ∧ w1.wsched = w.wsched ∧ w1.net_errmsg = w.net_errmsg :=
  read_nbytes_loop_short nbytes.toNat { w with errno := Errno.zero } buf 0 nbytes nbytes
    (Nat.le_refl _) hr (Nat.zero_le _)

/-- The function `net_recv` on a stream that has fewer than two readable
bytes: it returns -1 and leaves `buff` alone, whether the stream ended or a
`read` failed. -/
theorem net_recv_no_length_field (w : Net) (buff : List Byte) (maxlen : Int)
    (hr : (readable w.inbound).length < 2) :
    ∃ w1 : Net, net_recv w buff maxlen = some (-1, buff, w1) := by
  obtain ⟨rc, w1, h1, h2, _, _, _⟩ := read_nbytes_short w [0, 0] 2 (by simpa using hr)
  refine ⟨w1, ?_⟩
  unfold net_recv
  simp only [h1]
  rw [if_pos (by omega)]

/-- The function `net_recv` on a stream whose prefix, read as a `short`,
exceeds `maxlen`. -/
theorem net_recv_too_large (w : Net) (buff : List Byte) (maxlen : Int) (b0 b1 : Byte)
    (rest : List Byte) (hs : readable w.inbound = b0 :: b1 :: rest)
    (hgt : toShort (ntohs [b0, b1]) > maxlen) :
    ∃ w1 : Net, net_recv w buff maxlen = some (-2, buff, w1) ∧ readable w1.inbound = rest := by
  obtain ⟨w1, h1, h2, _, _⟩ := read_length_field w b0 b1 rest hs
  refine ⟨{ w1 with net_errmsg := some "net_recv: record length too large\n" }, ?_, h2⟩
  unfold net_recv
  simp only [h1]
  rw [if_neg (by omega), if_neg (by simp), if_pos hgt]

/-- The function `net_recv` on a stream whose prefix, read as a `short`, is
negative and not above `maxlen`: `read_nbytes` is called with the negative
count, reads nothing and returns 0, and `net_recv` returns -2. -/
theorem net_recv_negative (w : Net) (buff : List Byte) (maxlen : Int) (b0 b1 : Byte)
    (rest : List Byte) (hs : readable w.inbound = b0 :: b1 :: rest)
    (hneg : toShort (ntohs [b0, b1]) < 0) (hle : toShort (ntohs [b0, b1]) ≤ maxlen) :
    ∃ w1 : Net, net_recv w buff maxlen = some (-2, buff, w1) ∧ readable w1.inbound = rest := by
  obtain ⟨w1, h1, h2, _, _⟩ := read_length_field w b0 b1 rest hs
  refine ⟨{ { w1 with errno := Errno.zero } with
    net_errmsg := some "net_recv: read_nbytes error\n" }, ?_, h2⟩
  unfold net_recv
  simp only [h1]
  rw [if_neg (by omega), if_neg (by simp), if_neg (by omega), if_neg (by omega)]
  simp only [read_nbytes_nonpos w1 buff _ (le_of_lt hneg)]
  rw [if_pos (le_refl _)]

/-- The function `net_recv` on a stream whose prefix declares a length between
1 and `maxlen` and which has fewer readable bytes after it: it returns -2 with
the bytes it got at the start of `buff`. -/
theorem net_recv_short_payload (w : Net) (buff : List Byte) (maxlen : Int) (b0 b1 : Byte)
    (rest : List Byte) (hs : readable w.inbound = b0 :: b1 :: rest)
    (hpos : 0 < toShort (ntohs [b0, b1])) (hmax : toShort (ntohs [b0, b1]) ≤ maxlen)
    (hrest : rest.length < (toShort (ntohs [b0, b1])).toNat) :
    ∃ w2 : Net, net_recv w buff maxlen = some (-2, store buff 0 rest, w2) := by
  obtain ⟨w1, h1, h2, _, _⟩ := read_length_field w b0 b1 rest hs
  obtain ⟨rc, w2, k1, k2, _, _, _⟩ :=
    read_nbytes_short w1 buff (toShort (ntohs [b0, b1])) (by rw [h2]; exact hrest)
  refine ⟨{ w2 with net_errmsg := some "net_recv: read_nbytes error\n" }, ?_⟩
  unfold net_recv
  simp only [h1]
  rw [if_neg (by omega), if_neg (by simp), if_neg (by omega), if_neg (by omega)]
  simp only [k1, h2]
  rw [if_pos (by omega)]

theorem toShort_bounds (x : Int) : -32768 ≤ toShort x ∧ toShort x ≤ 32767 := by
  unfold toShort
  omega

/-- Every way `net_recv` can go, by what the stream has to read: fewer than
two bytes; or a prefix that, read as a `short`, is above `maxlen`, negative,
zero, or a length between 1 and `maxlen` with or without that many bytes
after it. -/
theorem net_recv_cases (w : Net) (buff : List Byte) (maxlen : Int) :
    ((readable w.inbound).length < 2 ∧
      ∃ w1 : Net, net_recv w buff maxlen = some (-1, buff, w1)) ∨
    ∃ (b0 b1 : Byte) (rest : List Byte), readable w.inbound = b0 :: b1 :: rest ∧
      ((maxlen < toShort (ntohs [b0, b1]) ∧
          ∃ w1 : Net, net_recv w buff maxlen = some (-2, buff, w1)) ∨
       (toShort (ntohs [b0, b1]) < 0 ∧ toShort (ntohs [b0, b1]) ≤ maxlen ∧
          ∃ w1 : Net, net_recv w buff maxlen = some (-2, buff, w1)) ∨
       (toShort (ntohs [b0, b1]) = 0 ∧ 0 ≤ maxlen ∧
          ∃ w1 : Net, net_recv w buff maxlen = some (0, buff, w1)) ∨
       (0 < toShort (ntohs [b0, b1]) ∧ toShort (ntohs [b0, b1]) ≤ maxlen ∧
          (toShort (ntohs [b0, b1])).toNat ≤ rest.length ∧
          ∃ w1 : Net, net_recv w buff maxlen =
            some (toShort (ntohs [b0, b1]),
              store buff 0 (rest.take (toShort (ntohs [b0, b1])).toNat), w1)) ∨
       (0 < toShort (ntohs [b0, b1]) ∧ toShort (ntohs [b0, b1]) ≤ maxlen ∧
          rest.length < (toShort (ntohs [b0, b1])).toNat ∧
          ∃ w1 : Net, net_recv w buff maxlen = some (-2, store buff 0 rest, w1))) := by
  cases hR : readable w.inbound with
  | nil =>
    left
    exact ⟨by simp, net_recv_no_length_field w buff maxlen (by rw [hR]; simp)⟩
  | cons b0 t =>
    cases t with
    | nil =>
      left
      exact ⟨by simp, net_recv_no_length_field w buff maxlen (by rw [hR]; simp)⟩
    | cons b1 rest =>
      right
      refine ⟨b0, b1, rest, rfl, ?_⟩
      by_cases hgt : maxlen < toShort (ntohs [b0, b1])
      · left
        obtain ⟨w1, h, _⟩ := net_recv_too_large w buff maxlen b0 b1 rest hR hgt
        exact ⟨hgt, w1, h⟩
      · right
        have hle : toShort (ntohs [b0, b1]) ≤ maxlen := by omega
        by_cases hneg : toShort (ntohs [b0, b1]) < 0
        · left
          obtain ⟨w1, h, _⟩ := net_recv_negative w buff maxlen b0 b1 rest hR hneg hle
          exact ⟨hneg, hle, w1, h⟩
        · right
          by_cases hz : toShort (ntohs [b0, b1]) = 0
          · left
            obtain ⟨w1, h, _⟩ := net_recv_zero w buff maxlen b0 b1 rest hR hz (by omega)
            exact ⟨hz, by omega, w1, h⟩
          · right
            have hpos : 0 < toShort (ntohs [b0, b1]) := by omega
            by_cases hlen : (toShort (ntohs [b0, b1])).toNat ≤ rest.length
            · left
              obtain ⟨w1, h, _⟩ := net_recv_frame w buff maxlen b0 b1 rest hR hpos hle hlen
              exact ⟨hpos, hle, hlen, w1, h⟩
            · right
              obtain ⟨w1, h⟩ :=
                net_recv_short_payload w buff maxlen b0 b1 rest hR hpos hle (by omega)
              exact ⟨hpos, hle, by omega, w1, h⟩

/-- C13, as the claim states it, fails: on a stream whose first `read` fails
with error number 5 (not `EINTR`, not `EAGAIN`, and not the return value 0 of
end of file), `net_recv` returns -1, not -2. -/
theorem C13_read_error_returns_minus_one :
    (read (Net.start [ReadEv.fail (Errno.other 5)] []) 2).1 = -1 ∧
    (read (Net.start [ReadEv.fail (Errno.other 5)] []) 2).2.2.errno = Errno.other 5 ∧
    (net_recv (Net.start [ReadEv.fail (Errno.other 5)] []) [5, 5] 2).map (fun r => r.1) =
      some (-1) := by
  decide

/-- C13, amended: `net_recv` returns -1 exactly when the stream cannot give the
two bytes of the prefix, because it reaches end of file or because a `read`
fails with an error other than `EINTR` and `EAGAIN` before they are complete;
it returns -2 exactly when the prefix is complete and the length it declares,
read as a `short`, is above `maxlen`, or negative, or more than the bytes the
stream can give after it. -/
theorem C13_net_recv_error_results (w : Net) (buff : List Byte) (maxlen : Int) :
    ∃ (rc : Int) (buff1 : List Byte) (w1 : Net),
      net_recv w buff maxlen = some (rc, buff1, w1) ∧
      (rc = -1 ↔ (readable w.inbound).length < 2) ∧
      (rc = -2 ↔ 2 ≤ (readable w.inbound).length ∧
        (maxlen < toShort (ntohs ((readable w.inbound).take 2)) ∨
         toShort (ntohs ((readable w.inbound).take 2)) < 0 ∨
         (((readable w.inbound).length : Int) - 2 <
           toShort (ntohs ((readable w.inbound).take 2))))) := by
  rcases net_recv_cases w buff maxlen with ⟨hlt, w1, h⟩ | ⟨b0, b1, rest, hR, hc⟩
  · refine ⟨-1, buff, w1, h, ?_, ?_⟩
    · simp [hlt]
    · constructor
      · intro h2; omega
      · intro h2; omega
  · have hlen : (readable w.inbound).length = rest.length + 2 := by rw [hR]; simp
    have htake : (readable w.inbound).take 2 = [b0, b1] := by rw [hR]; simp
    rw [htake, hlen]
    rcases hc with ⟨h1, w1, h⟩ | ⟨h1, h2, w1, h⟩ | ⟨h1, h2, w1, h⟩ | ⟨h1, h2, h3, w1, h⟩ |
      ⟨h1, h2, h3, w1, h⟩
    · refine ⟨-2, buff, w1, h, ?_, ?_⟩
      · constructor <;> intro h2 <;> omega
      · constructor
        · intro _; exact ⟨by omega, Or.inl h1⟩
        · intro _; rfl
    · refine ⟨-2, buff, w1, h, ?_, ?_⟩
      · constructor <;> intro h3 <;> omega
      · constructor
        · intro _; exact ⟨by omega, Or.inr (Or.inl h1)⟩
        · intro _; rfl
    · refine ⟨0, buff, w1, h, ?_, ?_⟩
      · constructor <;> intro h3 <;> omega
      · constructor
        · intro h3; omega
        · rintro ⟨_, h3 | h3 | h3⟩ <;> omega
    · refine ⟨_, _, w1, h, ?_, ?_⟩
      · constructor <;> intro h4 <;> omega
      · constructor
        · intro h4; omega
        · rintro ⟨_, h4 | h4 | h4⟩ <;> omega
    · refine ⟨-2, _, w1, h, ?_, ?_⟩
      · constructor <;> intro h4 <;> omega
      · constructor
        · intro _; exact ⟨by omega, Or.inr (Or.inr (by omega))⟩
        · intro _; rfl

theorem readable_single (b : Byte) (bs : List Byte) :
    readable [ReadEv.data b bs] = b :: bs := by
  simp [readable]

/-- C14, as the claim states it, fails: the prefix `[128, 0]` declares 32768
as a big-endian 16-bit number, `maxlen` is 40000 and 32768 payload bytes
follow on the stream, yet `net_recv` returns -2 and leaves the payload unread,
because the `short` it decodes is -32768. -/
theorem C14_high_bit_length_rejected :
    ((128 : Int) * 256 + 0 = 32768 ∧ (32768 : Int) ≤ 40000 ∧
      (List.replicate 32768 (7 : Byte)).length = 32768) ∧
    ∃ w1 : Net,
      net_recv (Net.start [ReadEv.data 128 (0 :: List.replicate 32768 7)] [])
        (List.replicate 40000 0) 40000 = some (-2, List.replicate 40000 0, w1) ∧
      readable w1.inbound = List.replicate 32768 7 := by
  have hs : readable (Net.start [ReadEv.data 128 (0 :: List.replicate 32768 7)] []).inbound =
      128 :: 0 :: List.replicate 32768 7 :=
    readable_single 128 (0 :: List.replicate 32768 7)
  refine ⟨⟨by decide, by decide, List.length_replicate _ _⟩, ?_⟩
  exact net_recv_negative _ _ 40000 128 0 (List.replicate 32768 7) hs (by decide) (by decide)

/-- C14, amended: for every prefix whose value read as a `short` is a length
`L` with `0 < L ≤ maxlen` (these are the prefixes with the high bit clear, for
which `L` is the big-endian value, 1 to 32767): when at least `L` bytes follow
on the stream `net_recv` returns `L` with exactly the first `L` of them at the
start of `buff`, and when fewer follow it returns -2; for every prefix with the
high bit set it returns -2, whatever `maxlen` is and whatever follows, and
reads no payload byte. -/
theorem C14_net_recv_payload (w : Net) (buff : List Byte) (maxlen : Int) (b0 b1 : Byte)
    (rest : List Byte) (hs : readable w.inbound = b0 :: b1 :: rest) :
    (b0.val < 128 → toShort (ntohs [b0, b1]) = (b0.val : Int) * 256 + (b1.val : Int)) ∧
    (0 < toShort (ntohs [b0, b1]) → toShort (ntohs [b0, b1]) ≤ maxlen →
      ((toShort (ntohs [b0, b1])).toNat ≤ rest.length →
        ∃ w1 : Net, net_recv w buff maxlen =
            some (toShort (ntohs [b0, b1]),
              rest.take (toShort (ntohs [b0, b1])).toNat ++
                buff.drop (toShort (ntohs [b0, b1])).toNat, w1) ∧
          readable w1.inbound = rest.drop (toShort (ntohs [b0, b1])).toNat) ∧
      (rest.length < (toShort (ntohs [b0, b1])).toNat →
        ∃ w1 : Net, (net_recv w buff maxlen).map (fun r => (r.1, r.2.2)) = some (-2, w1))) ∧
    (128 ≤ b0.val →
      ∃ w1 : Net, net_recv w buff maxlen = some (-2, buff, w1) ∧
        readable w1.inbound = rest) := by
  have hb0 := b0.isLt
  have hb1 := b1.isLt
  have hn : ntohs [b0, b1] = (b0.val : Int) * 256 + (b1.val : Int) := rfl
  refine ⟨?_, ?_, ?_⟩
  · intro h
    rw [hn]
    unfold toShort
    omega
  · intro hpos hmax
    constructor
    · intro hlen
      obtain ⟨w1, h1, h2⟩ := net_recv_frame w buff maxlen b0 b1 rest hs hpos hmax hlen
      refine ⟨w1, ?_, h2⟩
      rw [h1]
      have hl : (rest.take (toShort (ntohs [b0, b1])).toNat).length =
          (toShort (ntohs [b0, b1])).toNat := by
        rw [List.length_take]; omega
      simp [store, hl]
    · intro hlen
      obtain ⟨w1, h1⟩ := net_recv_short_payload w buff maxlen b0 b1 rest hs hpos hmax hlen
      exact ⟨w1, by rw [h1]; rfl⟩
  · intro h
    have hneg : toShort (ntohs [b0, b1]) < 0 := by
      rw [hn]
      unfold toShort
      omega
    by_cases hgt : maxlen < toShort (ntohs [b0, b1])
    · exact net_recv_too_large w buff maxlen b0 b1 rest hs hgt
    · exact net_recv_negative w buff maxlen b0 b1 rest hs hneg (by omega)

/-- C14, amended, at concrete inputs: a prefix that declares 3 bytes with
`maxlen = 4`, once with four bytes after it and once with two; and the prefix
`[255, 254]` with three bytes after it. -/
theorem C14_net_recv_payload_witness :
    (∃ w1 : Net,
      net_recv (Net.start [ReadEv.data 0 [3, 7], ReadEv.data 8 [9, 1]] []) [5, 5, 5, 5] 4 =
          some (3, [7, 8, 9] ++ [5], w1) ∧
        readable w1.inbound = [1]) ∧
    (∃ w1 : Net,
      (net_recv (Net.start [ReadEv.data 0 [3, 7], ReadEv.data 8 []] []) [5, 5, 5, 5] 4).map
        (fun r => (r.1, r.2.2)) = some (-2, w1)) ∧
    (∃ w1 : Net,
      net_recv (Net.start [ReadEv.data 255 [254, 7, 8, 9]] []) [5, 5, 5, 5] 4 =
          some (-2, [5, 5, 5, 5], w1) ∧
        readable w1.inbound = [7, 8, 9]) :=
  ⟨((C14_net_recv_payload (Net.start [ReadEv.data 0 [3, 7], ReadEv.data 8 [9, 1]] [])
      [5, 5, 5, 5] 4 0 3 [7, 8, 9, 1] (by decide)).2.1 (by decide) (by decide)).1 (by decide),
   ((C14_net_recv_payload (Net.start [ReadEv.data 0 [3, 7], ReadEv.data 8 []] [])
      [5, 5, 5, 5] 4 0 3 [7, 8] (by decide)).2.1 (by decide) (by decide)).2 (by decide),
   (C14_net_recv_payload (Net.start [ReadEv.data 255 [254, 7, 8, 9]] [])
      [5, 5, 5, 5] 4 255 254 [7, 8, 9] (by decide)).2.2 (by decide)⟩

/-- C20: for every `maxlen ≥ 0` and every stream, `net_recv` returns, the bytes
it has stored are at the start of `buff` and are at most `maxlen` (the rest
of `buff` is as it was), and its result is -2, -1, 0 or a number `r` with
`1 ≤ r ≤ min(maxlen, 32767)`, in which case exactly `r` bytes were stored. -/
theorem C20_net_recv_bounds (w : Net) (buff : List Byte) (maxlen : Int) (hmax : 0 ≤ maxlen) :
    ∃ (rc : Int) (stored : List Byte) (w1 : Net),
      net_recv w buff maxlen = some (rc, stored ++ buff.drop stored.length, w1) ∧
      (stored.length : Int) ≤ maxlen ∧
      (rc = -2 ∨ rc = -1 ∨ rc = 0 ∨
        (1 ≤ rc ∧ rc ≤ min maxlen 32767 ∧ (stored.length : Int) = rc)) := by
  rcases net_recv_cases w buff maxlen with ⟨_, w1, h⟩ | ⟨b0, b1, rest, _, hc⟩
  · exact ⟨-1, [], w1, by simpa using h, by simpa using hmax, Or.inr (Or.inl rfl)⟩
  · have hb := toShort_bounds (ntohs [b0, b1])
    rcases hc with ⟨_, w1, h⟩ | ⟨_, _, w1, h⟩ | ⟨_, _, w1, h⟩ | ⟨h1, h2, h3, w1, h⟩ |
      ⟨h1, h2, h3, w1, h⟩
    · exact ⟨-2, [], w1, by simpa using h, by simpa using hmax, Or.inl rfl⟩
    · exact ⟨-2, [], w1, by simpa using h, by simpa using hmax, Or.inl rfl⟩
    · exact ⟨0, [], w1, by simpa using h, by simpa using hmax, Or.inr (Or.inr (Or.inl rfl))⟩
    · have hl : (rest.take (toShort (ntohs [b0, b1])).toNat).length =
          (toShort (ntohs [b0, b1])).toNat := by
        rw [List.length_take]; omega
      refine ⟨toShort (ntohs [b0, b1]), rest.take (toShort (ntohs [b0, b1])).toNat, w1,
        ?_, ?_, ?_⟩
      · rw [h]; simp [store]
      · rw [hl]; omega
      · right; right; right
        refine ⟨by omega, ?_, by rw [hl]; omega⟩
        exact le_min h2 hb.2
    · refine ⟨-2, rest, w1, ?_, by omega, Or.inl rfl⟩
      rw [h]; simp [store]

/-- C20 at a concrete input: a stream that ends in the middle of a frame of 3
bytes, read with `maxlen = 4`. -/
theorem C20_net_recv_bounds_witness :
    ∃ (rc : Int) (stored : List Byte) (w1 : Net),
      net_recv (Net.start [ReadEv.data 0 [3, 7]] []) [5, 5, 5, 5] 4 =
        some (rc, stored ++ List.drop stored.length [5, 5, 5, 5], w1) ∧
      (stored.length : Int) ≤ 4 ∧
      (rc = -2 ∨ rc = -1 ∨ rc = 0 ∨
        (1 ≤ rc ∧ rc ≤ min 4 32767 ∧ (stored.length : Int) = rc)) :=
  C20_net_recv_bounds (Net.start [ReadEv.data 0 [3, 7]] []) [5, 5, 5, 5] 4 (by decide)

/-- One `write` call, however it goes: it puts on the wire the first `k` bytes
offered, where `k` is its return value, or nothing when it returns -1. -/
theorem write_any (w : Net) (ptr : List Byte) (count : Int) (hc : 0 < count) :
    ∃ k : Nat, k ≤ count.toNat ∧ (write w ptr count).2.wire = w.wire ++ ptr.take k ∧
      ((write w ptr count).1 = (k : Int) ∨ ((write w ptr count).1 = -1 ∧ k = 0)) := by
  cases hs : w.wsched with
  | nil =>
    refine ⟨count.toNat, Nat.le_refl _, by simp [write, hs], Or.inl ?_⟩
    simp [write, hs]
    omega
  | cons ev rest =>
    cases ev with
    | fail e => exact ⟨0, Nat.zero_le _, by simp [write, hs], Or.inr ⟨by simp [write, hs], rfl⟩⟩
    | accept k =>
      exact ⟨min k count.toNat, Nat.min_le_right _ _, by simp [write, hs],
        Or.inl (by simp [write, hs])⟩

/-- The loop of `write_nbytes`, however the `write` calls go: either it returns
`nbytes` and has put exactly the `nleft` bytes on the wire, or it returns a
number that is not positive and has put fewer than `nleft` of them there. -/
theorem write_nbytes_loop_wire (fuel : Nat) :
    ∀ (w : Net) (ptr : List Byte) (nbytes nleft : Int) (rc : Int) (w1 : Net), 0 ≤ nleft →
      write_nbytes_loop fuel w ptr nbytes nleft = some (rc, w1) →
      (rc = nbytes ∧ w1.wire = w.wire ++ ptr.take nleft.toNat) ∨
      (rc ≤ 0 ∧ 0 < nleft ∧ ∃ k : Nat, k < nleft.toNat ∧ w1.wire = w.wire ++ ptr.take k) := by
  induction fuel with
  | zero =>
    intro w ptr nbytes nleft rc w1 h0 h
    by_cases hpos : nleft > 0
    · rw [write_nbytes_loop, if_pos hpos] at h
      cases h
    · rw [write_nbytes_loop, if_neg hpos] at h
      have hz : nleft = 0 := by omega
      subst hz
      simp only [Option.some.injEq, Prod.mk.injEq] at h
      exact Or.inl ⟨by omega, by rw [← h.2]; simp⟩
  | succ f ih =>
    intro w ptr nbytes nleft rc w1 h0 h
    by_cases hpos : nleft > 0
    · obtain ⟨k, hk, hw, hr⟩ := write_any w ptr nleft hpos
      rw [write_nbytes_loop, if_pos hpos] at h
      by_cases hn : (write w ptr nleft).1 ≤ 0
      · simp only [if_pos hn, Option.some.injEq, Prod.mk.injEq] at h
        have hk0 : k = 0 := by
          rcases hr with hr | hr
          · omega
          · exact hr.2
        refine Or.inr ⟨by omega, hpos, 0, by omega, ?_⟩
        rw [← h.2]
        show (write w ptr nleft).2.wire = _
        rw [hw, hk0]
      · simp only [if_neg hn] at h
        have hrk : (write w ptr nleft).1 = (k : Int) := by
          rcases hr with hr | hr
          · exact hr
          · omega
        rw [hrk] at h
        simp only [Int.toNat_ofNat] at h
        rcases ih _ _ nbytes _ rc w1 (by omega) h with ⟨e1, e2⟩ | ⟨e1, _, j, e3, e4⟩
        · refine Or.inl ⟨e1, ?_⟩
          rw [e2, hw, List.append_assoc]
          have ht : nleft.toNat = k + (nleft - (k : Int)).toNat := by omega
          rw [ht, List.take_add]
        · refine Or.inr ⟨e1, hpos, k + j, by omega, ?_⟩
          rw [e4, hw, List.append_assoc, List.take_add]
    · rw [write_nbytes_loop, if_neg hpos] at h
      have hz : nleft = 0 := by omega
      subst hz
      simp only [Option.some.injEq, Prod.mk.injEq] at h
      exact Or.inl ⟨by omega, by rw [← h.2]; simp⟩

/-- C11: close handshake.  The function `net_close` makes one `write_nbytes`
call for two zero bytes and then closes the socket.  When every `write` makes
progress that call succeeds: it returns 2 and the socket is closed with
exactly the two zero bytes, a frame of length zero, added to the stream; and
however the `write` calls go, the call returns, and if it returns 2 exactly
those two bytes were added.  For every `maxlen ≥ 0`, `net_recv` on a stream
whose next two bytes are zero returns 0, which is neither -1 nor -2, leaves
`buff` alone and consumes exactly those two bytes. -/
theorem C11_close_handshake (w : Net) :
    (progress w.wsched = true →
      ∃ w1 : Net, write_nbytes w [0, 0] 2 = some (2, w1) ∧
        net_close w = some { last := w1 } ∧ w1.wire = w.wire ++ [0, 0]) ∧
    (∃ (rc : Int) (w1 : Net),
      write_nbytes w [0, 0] 2 = some (rc, w1) ∧ net_close w = some { last := w1 } ∧
      (rc = 2 → w1.wire = w.wire ++ [0, 0])) ∧
    (∀ (wr : Net) (buff rest : List Byte) (maxlen : Int), 0 ≤ maxlen →
      readable wr.inbound = 0 :: 0 :: rest →
      ∃ wr1 : Net, net_recv wr buff maxlen = some (0, buff, wr1) ∧
        readable wr1.inbound = rest ∧ (0 : Int) ≠ -1 ∧ (0 : Int) ≠ -2) := by
  refine ⟨?_, ?_, ?_⟩
  · intro hp
    obtain ⟨w1, h1, h2, _, _, _⟩ := write_nbytes_progress w [0, 0] 2 (by omega) hp
    exact ⟨w1, h1, by simp [net_close, h1], by simpa using h2⟩
  · obtain ⟨⟨rc, w1⟩, h⟩ := write_nbytes_total w [0, 0] 2
    refine ⟨rc, w1, h, by simp [net_close, h], ?_⟩
    intro hrc
    rcases write_nbytes_loop_wire _ w [0, 0] 2 2 rc w1 (by omega) h with ⟨_, e⟩ | ⟨e, _⟩
    · simpa using e
    · omega
  · intro wr buff rest maxlen hmax hs
    obtain ⟨wr1, h1, h2⟩ := net_recv_zero wr buff maxlen 0 0 rest hs (by decide) hmax
    exact ⟨wr1, h1, h2, by decide, by decide⟩

/-- C11 at concrete inputs: `net_close` on a socket whose first `write` takes
one byte only, which leaves the socket closed with the two zero bytes on the
stream; and `net_recv` on a stream that has the two zero bytes and one more. -/
theorem C11_close_handshake_witness :
    progress (Net.start [] [WriteEv.accept 1]).wsched = true ∧
    (net_close (Net.start [] [WriteEv.accept 1])).map (fun c => c.last.wire) =
      some [0, 0] ∧
    (write_nbytes (Net.start [] [WriteEv.accept 1]) [0, 0] 2).map (fun r => r.1) = some 2 ∧
    (∃ wr1 : Net,
      net_recv (Net.start [ReadEv.data 0 [], ReadEv.data 0 [9]] []) [5, 5] 2 =
        some (0, [5, 5], wr1) ∧
      readable wr1.inbound = [9] ∧ (0 : Int) ≠ -1 ∧ (0 : Int) ≠ -2) := by
  obtain ⟨w1, h1, h2, h3⟩ :=
    (C11_close_handshake (Net.start [] [WriteEv.accept 1])).1 (by decide)
  refine ⟨by decide, ?_, ?_, ?_⟩
  · rw [h2]
    simpa using h3
  · rw [h1]
    rfl
  · exact (C11_close_handshake (Net.start [] [])).2.2
      (Net.start [ReadEv.data 0 [], ReadEv.data 0 [9]] []) [5, 5] [9] 2 (by decide) (by decide)

/-- What `net_send` does with a payload of any length an `int` can hold when
every `write` makes progress: no length is refused; the two bytes of the
prefix are those of the length modulo 65536. -/
theorem net_send_progress_any (w : Net) (payload : List Byte)
    (hp : progress w.wsched = true) :
    ∃ w1 : Net,
      net_send w payload (payload.length : Int) = some ((payload.length : Int), w1) ∧
      w1.wire = w.wire ++ htons (toShort (payload.length : Int)) ++ payload := by
  have e : htons (toShort (payload.length : Int)) =
      [Fin.ofNat ((toShort (payload.length : Int) % 65536) / 256).toNat,
       Fin.ofNat ((toShort (payload.length : Int) % 65536) % 256).toNat] := rfl
  obtain ⟨w1, a1, a2, a3, _, _⟩ :=
    write_nbytes_progress w (htons (toShort (payload.length : Int))) 2 (by omega) hp
  obtain ⟨w2, b1, b2, _, _, _⟩ :=
    write_nbytes_progress w1 payload (payload.length : Int) (by omega) a3
  refine ⟨w2, ?_, ?_⟩
  · simp [net_send, a1, b1]
  · rw [b2, a2, e]
    simp

/-- C12, as the claim states it, fails: for a payload of 65536 bytes, with
writes that take all they are offered, `net_send` returns 65536, the value for
success, and the frame it has put on the stream starts with the prefix
`[0, 0]`, which declares no payload, followed by the 65536 payload bytes. -/
theorem C12_oversized_payload_sent :
    ∃ w1 : Net,
      net_send (Net.start [] []) (List.replicate 65536 7) 65536 = some (65536, w1) ∧
      w1.wire = 0 :: 0 :: List.replicate 65536 7 := by
  obtain ⟨w1, h1, h2⟩ := net_send_progress_any (Net.start [] []) (List.replicate 65536 7) rfl
  rw [List.length_replicate] at h1 h2
  refine ⟨w1, h1, ?_⟩
  rw [h2]
  have e : htons (toShort ((65536 : Nat) : Int)) = [0, 0] := by decide
  rw [e]
  rfl

/-- C12, amended: `net_send` has no length check and no result for a payload
that is too large.  For every payload, of 32768 bytes or more as of fewer, when
every `write` makes progress it returns the payload length `len` and puts on
the stream the two bytes of `len mod 65536`, high byte first, followed by all
the payload bytes; from 32768 bytes on, the length that the peer decodes from
that prefix (a `short`) is not `len`. -/
theorem C12_net_send_any_length (w : Net) (payload : List Byte)
    (hp : progress w.wsched = true) :
    ∃ (w1 : Net) (hi lo : Byte),
      net_send w payload (payload.length : Int) = some ((payload.length : Int), w1) ∧
      w1.wire = w.wire ++ hi :: lo :: payload ∧
      hi.val = payload.length % 65536 / 256 ∧ lo.val = payload.length % 256 ∧
      (32768 ≤ payload.length → toShort (ntohs [hi, lo]) ≠ (payload.length : Int)) := by
  obtain ⟨w1, h1, h2⟩ := net_send_progress_any w payload hp
  refine ⟨w1, Fin.ofNat ((toShort (payload.length : Int) % 65536) / 256).toNat,
    Fin.ofNat ((toShort (payload.length : Int) % 65536) % 256).toNat, h1, ?_, ?_, ?_, ?_⟩
  · rw [h2]
    simp [htons]
  · simp only [Fin.ofNat, Fin.val_mk, toShort]
    omega
  · simp only [Fin.ofNat, Fin.val_mk, toShort]
    omega
  · intro hbig
    have hb := toShort_bounds (ntohs
      [Fin.ofNat ((toShort (payload.length : Int) % 65536) / 256).toNat,
       Fin.ofNat ((toShort (payload.length : Int) % 65536) % 256).toNat])
    omega

/-- C12, amended, at a concrete input: a payload of 40000 bytes through writes
that take 1 and 3 bytes at most and then all they are offered. -/
theorem C12_net_send_any_length_witness :
    progress (Net.start [] [WriteEv.accept 1, WriteEv.accept 3]).wsched = true ∧
    ∃ (w1 : Net) (hi lo : Byte),
      net_send (Net.start [] [WriteEv.accept 1, WriteEv.accept 3]) (List.replicate 40000 7)
          ((List.replicate 40000 (7 : Byte)).length : Int) =
        some (((List.replicate 40000 (7 : Byte)).length : Int), w1) ∧
      w1.wire = (Net.start [] [WriteEv.accept 1, WriteEv.accept 3]).wire ++
        hi :: lo :: List.replicate 40000 7 ∧
      hi.val = (List.replicate 40000 (7 : Byte)).length % 65536 / 256 ∧
      lo.val = (List.replicate 40000 (7 : Byte)).length % 256 ∧
      (32768 ≤ (List.replicate 40000 (7 : Byte)).length →
        toShort (ntohs [hi, lo]) ≠ ((List.replicate 40000 (7 : Byte)).length : Int)) :=
  ⟨by decide,
   C12_net_send_any_length (Net.start [] [WriteEv.accept 1, WriteEv.accept 3])
    (List.replicate 40000 7) (by decide)⟩

/-- The message for a failed `connect` differs from the three fixed messages
of `net_open`, whatever the host, the port and the error text are. -/
theorem connect_errmsg_ne (host : String) (port : Int) (err : String) :
    connect_errmsg host port err ≠ "tcp_open: hostname error\n" ∧
    connect_errmsg host port err ≠ "tcp_open: funny gethostbyname value\n" ∧
    connect_errmsg host port err ≠ "tcp_open: cannot open stream socket\n" := by
  have key : ∀ c : String, c.data.take 18 ≠ "tcp_open: cannot c".data →
      connect_errmsg host port err ≠ c := by
    intro c hc heq
    apply hc
    rw [← heq]
    simp only [connect_errmsg, String.data_append, List.append_assoc]
    rw [List.take_append_of_le_length (by decide)]
    decide
  exact ⟨key _ (by decide), key _ (by decide), key _ (by decide)⟩

/-- The part of `net_open` from the call of `socket` on, case by case: a failed
`socket`; a failed `connect` whose message fits `net_errbuf`; a failed
`connect` whose message does not fit; and success. -/
theorem net_open_socket_cases (env : OpenEnv) (host : String) (port : Int)
    (errmsg : Option String) (addr : SockaddrIn) (calls : List Syscall) :
    (env.socket < 0 →
      net_open_socket env host port errmsg addr calls =
        some { ret := -1, net_errmsg := some "tcp_open: cannot open stream socket\n",
               tcp_serv_addr := addr, calls := calls ++ [Syscall.socket] }) ∧
    (0 ≤ env.socket → env.connect < 0 →
      (connect_errmsg host port env.strerror).length < 256 →
      net_open_socket env host port errmsg addr calls =
        some { ret := -1, net_errmsg := some (connect_errmsg host port env.strerror),
               tcp_serv_addr := addr, calls := calls ++ [Syscall.socket, Syscall.connect] }) ∧
    (0 ≤ env.socket → env.connect < 0 →
      ¬ (connect_errmsg host port env.strerror).length < 256 →
      net_open_socket env host port errmsg addr calls = none) ∧
    (0 ≤ env.socket → 0 ≤ env.connect →
      net_open_socket env host port errmsg addr calls =
        some { ret := env.socket, net_errmsg := errmsg, tcp_serv_addr := addr,
               calls := calls ++ [Syscall.socket, Syscall.connect] }) := by
  unfold net_open_socket
  refine ⟨?_, ?_, ?_, ?_⟩
  · intro h
    rw [if_pos h]
  · intro h1 h2 h3
    rw [if_neg (by omega), if_pos h2, if_pos h3]
  · intro h1 h2 h3
    rw [if_neg (by omega), if_pos h2, if_neg h3]
  · intro h1 h2
    rw [if_neg (by omega), if_neg (by omega)]

/-- When an address is obtained, `net_open` goes on to the call of `socket`
with a list of calls that holds `gethostbyname` exactly when `inet_addr`
returned `INADDR_NONE`. -/
theorem net_open_resolved (env : OpenEnv) (host : String) (port : Int)
    (errmsg : Option String)
    (hres : env.inet_addr ≠ INADDR_NONE ∨ ∃ hp : Hostent, env.gethostbyname = some hp ∧
      hp.h_length = 4 ∧ hp.h_addrtype = env.AF_INET) :
    ∃ (addr : SockaddrIn) (calls : List Syscall),
      net_open env host port errmsg = net_open_socket env host port errmsg addr calls ∧
      (Syscall.gethostbyname ∈ calls ↔ env.inet_addr = INADDR_NONE) ∧
      Syscall.connect ∉ calls := by
  unfold net_open
  by_cases hin : env.inet_addr ≠ INADDR_NONE
  · simp only [if_pos hin]
    exact ⟨_, [Syscall.inet_addr], rfl, by simp [hin], by decide⟩
  · have hnone : env.inet_addr = INADDR_NONE := not_not.mp hin
    simp only [if_neg hin]
    rcases hres with h | ⟨hp, hg, h4, h5⟩
    · exact absurd h hin
    · simp only [hg]
      rw [if_neg (by rintro (h | h); exact h h4; exact h h5)]
      exact ⟨_, [Syscall.inet_addr, Syscall.gethostbyname], rfl, by simp [hnone], by decide⟩

/-- When no address is obtained, `net_open` returns -1 after the calls of
`inet_addr` and `gethostbyname`, with the message for the host name or the one
for the entry. -/
theorem net_open_unresolved (env : OpenEnv) (host : String) (port : Int)
    (errmsg : Option String) (hin : env.inet_addr = INADDR_NONE) :
    (env.gethostbyname = none →
      ∃ r : OpenResult, net_open env host port errmsg = some r ∧ r.ret = -1 ∧
        r.net_errmsg = some "tcp_open: hostname error\n" ∧
        r.calls = [Syscall.inet_addr, Syscall.gethostbyname]) ∧
    (∀ hp : Hostent, env.gethostbyname = some hp →
      hp.h_length ≠ 4 ∨ hp.h_addrtype ≠ env.AF_INET →
      ∃ r : OpenResult, net_open env host port errmsg = some r ∧ r.ret = -1 ∧
        r.net_errmsg = some "tcp_open: funny gethostbyname value\n" ∧
        r.calls = [Syscall.inet_addr, Syscall.gethostbyname]) := by
  have hnot : ¬ env.inet_addr ≠ INADDR_NONE := not_not.mpr hin
  constructor
  · intro hg
    unfold net_open
    simp only [if_neg hnot, hg]
    exact ⟨_, rfl, rfl, rfl, rfl⟩
  · intro hp hg hf
    unfold net_open
    simp only [if_neg hnot, hg, if_pos hf]
    exact ⟨_, rfl, rfl, rfl, rfl⟩

/-- Every way `net_open` can go: no address obtained; a failed `socket`; a
failed `connect` whose message fits `net_errbuf`; one whose message does not
fit; success. -/
theorem net_open_cases (env : OpenEnv) (host : String) (port : Int) (errmsg : Option String) :
    (¬ (env.inet_addr ≠ INADDR_NONE ∨ ∃ hp : Hostent, env.gethostbyname = some hp ∧
        hp.h_length = 4 ∧ hp.h_addrtype = env.AF_INET) ∧
      ∃ r : OpenResult, net_open env host port errmsg = some r ∧ r.ret = -1 ∧
        (Syscall.gethostbyname ∈ r.calls ↔ env.inet_addr = INADDR_NONE)) ∨
    ((env.inet_addr ≠ INADDR_NONE ∨ ∃ hp : Hostent, env.gethostbyname = some hp ∧
        hp.h_length = 4 ∧ hp.h_addrtype = env.AF_INET) ∧
      ((env.socket < 0 ∧
          ∃ r : OpenResult, net_open env host port errmsg = some r ∧ r.ret = -1 ∧
            r.net_errmsg = some "tcp_open: cannot open stream socket\n" ∧
            Syscall.connect ∉ r.calls ∧
            (Syscall.gethostbyname ∈ r.calls ↔ env.inet_addr = INADDR_NONE)) ∨
       (0 ≤ env.socket ∧ env.connect < 0 ∧
          (connect_errmsg host port env.strerror).length < 256 ∧
          ∃ r : OpenResult, net_open env host port errmsg = some r ∧ r.ret = -1 ∧
            r.net_errmsg = some (connect_errmsg host port env.strerror) ∧
            (Syscall.gethostbyname ∈ r.calls ↔ env.inet_addr = INADDR_NONE)) ∨
       (0 ≤ env.socket ∧ env.connect < 0 ∧
          ¬ (connect_errmsg host port env.strerror).length < 256 ∧
          net_open env host port errmsg = none) ∨
       (0 ≤ env.socket ∧ 0 ≤ env.connect ∧
          ∃ r : OpenResult, net_open env host port errmsg = some r ∧ r.ret = env.socket ∧
            r.net_errmsg = errmsg ∧
            (Syscall.gethostbyname ∈ r.calls ↔ env.inet_addr = INADDR_NONE)))) := by
  by_cases hres : env.inet_addr ≠ INADDR_NONE ∨ ∃ hp : Hostent, env.gethostbyname = some hp ∧
      hp.h_length = 4 ∧ hp.h_addrtype = env.AF_INET
  · right
    refine ⟨hres, ?_⟩
    obtain ⟨addr, calls, he, hc, hconn⟩ := net_open_resolved env host port errmsg hres
    obtain ⟨t1, t2, t3, t4⟩ := net_open_socket_cases env host port errmsg addr calls
    by_cases hs : env.socket < 0
    · left
      refine ⟨hs, _, by rw [he, t1 hs], rfl, rfl, ?_, ?_⟩
      · simpa using hconn
      · simpa using hc
    · right
      have hs0 : 0 ≤ env.socket := by omega
      by_cases hcn : env.connect < 0
      · by_cases hfit : (connect_errmsg host port env.strerror).length < 256
        · left
          refine ⟨hs0, hcn, hfit, _, by rw [he, t2 hs0 hcn hfit], rfl, rfl, ?_⟩
          simpa using hc
        · right; left
          exact ⟨hs0, hcn, hfit, by rw [he, t3 hs0 hcn hfit]⟩
      · right; right
        have hc0 : 0 ≤ env.connect := by omega
        refine ⟨hs0, hc0, _, by rw [he, t4 hs0 hc0], rfl, rfl, ?_⟩
        simpa using hc
  · left
    refine ⟨hres, ?_⟩
    have hin : env.inet_addr = INADDR_NONE := by
      by_contra h
      exact hres (Or.inl h)
    obtain ⟨u1, u2⟩ := net_open_unresolved env host port errmsg hin
    cases hg : env.gethostbyname with
    | none =>
      obtain ⟨r, h1, h2, _, h4⟩ := u1 hg
      exact ⟨r, h1, h2, by rw [h4]; simp [hin]⟩
    | some hp =>
      have hf : hp.h_length ≠ 4 ∨ hp.h_addrtype ≠ env.AF_INET := by
        by_contra hcon
        apply hres
        right
        refine ⟨hp, hg, ?_, ?_⟩
        · by_contra h; exact hcon (Or.inl h)
        · by_contra h; exact hcon (Or.inr h)
      obtain ⟨r, h1, h2, _, h4⟩ := u2 hp hg hf
      exact ⟨r, h1, h2, by rw [h4]; simp [hin]⟩

/-- C19, as the claim states it, fails: the host does not parse
(`inet_addr` returns `INADDR_NONE`), name resolution succeeds with an entry
whose address is not a 4-byte `AF_INET` address (here 16 bytes of family 10,
with `AF_INET` being 2), and `net_open` returns -1 with a fourth message,
without a call of `socket` or `connect`: no one of the three steps of the claim
has failed. -/
theorem C19_unusable_host_entry :
    (net_open (OpenEnv.mk 2 INADDR_NONE (some (Hostent.mk 16 10 0)) 3 0 "") "ups" 3551
        none).map (fun r => (r.ret, r.net_errmsg, r.calls)) =
      some (-1, some "tcp_open: funny gethostbyname value\n",
        [Syscall.inet_addr, Syscall.gethostbyname]) := by
  decide

/-- C19, amended: for every host, every port and every outcome of the system
calls.  `net_open` returns -1 with a message of its own for each of four
causes: `gethostbyname` returns `NULL`; it returns an entry that is not a
4-byte `AF_INET` address; `socket` fails; `connect` fails; in the first three
for every host, and for a failed `connect` when the message, which contains
the text of `strerror`, fits the 256 bytes of `net_errbuf`.  Otherwise it
returns the descriptor that `socket` gave and leaves `net_errmsg` as it was,
for every host.  The one case without a result is a failed `connect` whose
message does not fit (the buffer is overrun).  Whenever it returns, it
returned -1 exactly in the four cases, and it called `gethostbyname` exactly
when `inet_addr(host)` returned `INADDR_NONE`.  The four messages are pairwise
different. -/
theorem C19_net_open (env : OpenEnv) (host : String) (port : Int) (errmsg : Option String) :
    (env.inet_addr = INADDR_NONE → env.gethostbyname = none →
      ∃ r : OpenResult, net_open env host port errmsg = some r ∧ r.ret = -1 ∧
        r.net_errmsg = some "tcp_open: hostname error\n" ∧
        r.calls = [Syscall.inet_addr, Syscall.gethostbyname]) ∧
    (env.inet_addr = INADDR_NONE → ∀ hp : Hostent, env.gethostbyname = some hp →
      hp.h_length ≠ 4 ∨ hp.h_addrtype ≠ env.AF_INET →
      ∃ r : OpenResult, net_open env host port errmsg = some r ∧ r.ret = -1 ∧
        r.net_errmsg = some "tcp_open: funny gethostbyname value\n" ∧
        r.calls = [Syscall.inet_addr, Syscall.gethostbyname]) ∧
    ((env.inet_addr ≠ INADDR_NONE ∨ ∃ hp : Hostent, env.gethostbyname = some hp ∧
        hp.h_length = 4 ∧ hp.h_addrtype = env.AF_INET) →
      (env.socket < 0 →
        ∃ r : OpenResult, net_open env host port errmsg = some r ∧ r.ret = -1 ∧
          r.net_errmsg = some "tcp_open: cannot open stream socket\n" ∧
          Syscall.connect ∉ r.calls) ∧
      (0 ≤ env.socket → env.connect < 0 →
        (connect_errmsg host port env.strerror).length < 256 →
        ∃ r : OpenResult, net_open env host port errmsg = some r ∧ r.ret = -1 ∧
          r.net_errmsg = some (connect_errmsg host port env.strerror)) ∧
      (0 ≤ env.socket → 0 ≤ env.connect →
        ∃ r : OpenResult, net_open env host port errmsg = some r ∧ r.ret = env.socket ∧
          r.net_errmsg = errmsg)) ∧
    (net_open env host port errmsg = none ↔
      (env.inet_addr ≠ INADDR_NONE ∨ ∃ hp : Hostent, env.gethostbyname = some hp ∧
        hp.h_length = 4 ∧ hp.h_addrtype = env.AF_INET) ∧
      0 ≤ env.socket ∧ env.connect < 0 ∧
      ¬ (connect_errmsg host port env.strerror).length < 256) ∧
    (∀ r : OpenResult, net_open env host port errmsg = some r →
      (Syscall.gethostbyname ∈ r.calls ↔ env.inet_addr = INADDR_NONE) ∧
      (r.ret = -1 ↔
        ¬ (env.inet_addr ≠ INADDR_NONE ∨ ∃ hp : Hostent, env.gethostbyname = some hp ∧
          hp.h_length = 4 ∧ hp.h_addrtype = env.AF_INET) ∨
        env.socket < 0 ∨ env.connect < 0)) ∧
    ("tcp_open: hostname error\n" ≠ "tcp_open: funny gethostbyname value\n" ∧
      "tcp_open: hostname error\n" ≠ "tcp_open: cannot open stream socket\n" ∧
      "tcp_open: funny gethostbyname value\n" ≠ "tcp_open: cannot open stream socket\n" ∧
      connect_errmsg host port env.strerror ≠ "tcp_open: hostname error\n" ∧
      connect_errmsg host port env.strerror ≠ "tcp_open: funny gethostbyname value\n" ∧
      connect_errmsg host port env.strerror ≠ "tcp_open: cannot open stream socket\n") ∧
    (∃ pre post : String,
      connect_errmsg host port env.strerror = pre ++ env.strerror ++ post) := by
  have hmsg := connect_errmsg_ne host port env.strerror
  have hconst : "tcp_open: hostname error\n" ≠ "tcp_open: funny gethostbyname value\n" ∧
      "tcp_open: hostname error\n" ≠ "tcp_open: cannot open stream socket\n" ∧
      "tcp_open: funny gethostbyname value\n" ≠ "tcp_open: cannot open stream socket\n" := by
    decide
  have hcontains : ∃ pre post : String,
      connect_errmsg host port env.strerror = pre ++ env.strerror ++ post :=
    ⟨_, _, rfl⟩
  refine ⟨fun hin => (net_open_unresolved env host port errmsg hin).1,
    fun hin => (net_open_unresolved env host port errmsg hin).2, ?_, ?_, ?_,
    ⟨hconst.1, hconst.2.1, hconst.2.2, hmsg.1, hmsg.2.1, hmsg.2.2⟩, hcontains⟩
  · intro hres
    rcases net_open_cases env host port errmsg with ⟨hn, _⟩ | ⟨_, hc⟩
    · exact absurd hres hn
    · refine ⟨?_, ?_, ?_⟩
      · intro hs
        rcases hc with ⟨_, r, h1, h2, h3, h4, _⟩ | ⟨h, _⟩ | ⟨h, _⟩ | ⟨h, _⟩
        · exact ⟨r, h1, h2, h3, h4⟩
        all_goals omega
      · intro hs hcn hfit
        rcases hc with ⟨h, _⟩ | ⟨_, _, _, r, h1, h2, h3, _⟩ | ⟨_, _, h, _⟩ | ⟨_, h, _⟩
        · omega
        · exact ⟨r, h1, h2, h3⟩
        · exact absurd hfit h
        · omega
      · intro hs hcn
        rcases hc with ⟨h, _⟩ | ⟨_, h, _⟩ | ⟨_, h, _⟩ | ⟨_, _, r, h1, h2, h3, _⟩
        · omega
        · omega
        · omega
        · exact ⟨r, h1, h2, h3⟩
  · rcases net_open_cases env host port errmsg with ⟨hn, r, h1, _⟩ | ⟨hres, hc⟩
    · rw [h1]
      constructor
      · intro h; cases h
      · intro h; exact absurd h.1 hn
    · rcases hc with ⟨hs, r, h1, _⟩ | ⟨_, _, _, r, h1, _⟩ | ⟨hs, hcn, hfit, h1⟩ |
        ⟨_, hcn, r, h1, _⟩
      · rw [h1]
        constructor
        · intro h; cases h
        · intro h; omega
      · rw [h1]
        constructor
        · intro h; cases h
        · intro h; exact absurd (by assumption) h.2.2.2
      · rw [h1]
        exact ⟨fun _ => ⟨hres, hs, hcn, hfit⟩, fun _ => rfl⟩
      · rw [h1]
        constructor
        · intro h; cases h
        · intro h; omega
  · intro r hr
    rcases net_open_cases env host port errmsg with ⟨hn, r1, h1, h2, h3⟩ | ⟨hres, hc⟩
    · rw [h1] at hr
      cases hr
      exact ⟨h3, ⟨fun _ => Or.inl hn, fun _ => h2⟩⟩
    · rcases hc with ⟨hs, r1, h1, h2, _, _, h5⟩ | ⟨_, hcn, _, r1, h1, h2, _, h5⟩ |
        ⟨_, _, _, h1⟩ | ⟨hs, hcn, r1, h1, h2, _, h5⟩
      · rw [h1] at hr
        cases hr
        exact ⟨h5, ⟨fun _ => Or.inr (Or.inl hs), fun _ => h2⟩⟩
      · rw [h1] at hr
        cases hr
        exact ⟨h5, ⟨fun _ => Or.inr (Or.inr hcn), fun _ => h2⟩⟩
      · rw [h1] at hr
        cases hr
      · rw [h1] at hr
        cases hr
        refine ⟨h5, ⟨fun h => ?_, fun h => ?_⟩⟩
        · rw [h2] at h
          omega
        · rcases h with h | h | h
          · exact absurd hres h
          · omega
          · omega

/-- C19, amended, at concrete inputs: host "127.0.0.1", whose address
`inet_addr` returns, port 3551, a socket with descriptor 3 and a `connect` that
is refused; and a host name of 300 characters that does not parse and is not
found. -/
theorem C19_net_open_witness :
    (∃ r : OpenResult,
      net_open (OpenEnv.mk 2 16777343 none 3 (-1) "Connection refused") "127.0.0.1" 3551
        none = some r ∧
      r.ret = -1 ∧
      r.net_errmsg = some (connect_errmsg "127.0.0.1" 3551 "Connection refused")) ∧
    (∃ r : OpenResult,
      net_open (OpenEnv.mk 2 INADDR_NONE none 3 0 "")
        (String.mk (List.replicate 300 (Char.ofNat 97))) 3551 none = some r ∧
      r.ret = -1 ∧ r.net_errmsg = some "tcp_open: hostname error\n" ∧
      r.calls = [Syscall.inet_addr, Syscall.gethostbyname]) :=
  ⟨((C19_net_open (OpenEnv.mk 2 16777343 none 3 (-1) "Connection refused") "127.0.0.1" 3551
      none).2.2.1 (Or.inl (by decide))).2.1 (by decide) (by decide) (by decide),
   (C19_net_open (OpenEnv.mk 2 INADDR_NONE none 3 0 "")
      (String.mk (List.replicate 300 (Char.ofNat 97))) 3551 none).1 rfl rfl⟩

/-! ## Theorems: winmain.cpp -/

/-- An argument that is `/quiet` up to case is none of the five flags that
`WinMain` tests before it. -/
theorem quiet_not_other (arg : String) (h : strcasecmp_eq arg ApcupsdQuiet = true) :
    strcasecmp_eq arg ApcupsdRunService = false ∧
    strcasecmp_eq arg ApcupsdRunAsUserApp = false ∧
    strcasecmp_eq arg ApcupsdInstallService = false ∧
    strcasecmp_eq arg ApcupsdRemoveService = false ∧
    strcasecmp_eq arg ApcupsdKillRunningCopy = false := by
  unfold strcasecmp_eq at h ⊢
  have e : arg.data.map Char.toLower = ApcupsdQuiet.data.map Char.toLower := by
    simpa using h
  rw [e]
  decide

/-- After an argument that is `/quiet` up to case the loop goes on with the
next argument and the flag set. -/
theorem actOnWinargs_quiet (env : WinEnv) (quiet : Bool) (arg : String) (rest : List String)
    (h : strcasecmp_eq arg ApcupsdQuiet = true) :
    actOnWinargs env quiet (arg :: rest) = actOnWinargs env true rest := by
  obtain ⟨h1, h2, h3, h4, h5⟩ := quiet_not_other arg h
  simp [actOnWinargs, h, h1, h2, h3, h4, h5]

/-- Arguments that are all `/quiet` up to case are passed over; the flag is set
if there is one of them. -/
theorem actOnWinargs_quiet_run (env : WinEnv) (qs : List String) :
    ∀ (quiet : Bool) (rest : List String),
      (∀ q ∈ qs, strcasecmp_eq q ApcupsdQuiet = true) →
      actOnWinargs env quiet (qs ++ rest) = actOnWinargs env (quiet || !qs.isEmpty) rest := by
  induction qs with
  | nil => intro quiet rest _; simp
  | cons q qs ih =>
    intro quiet rest h
    have hq : strcasecmp_eq q ApcupsdQuiet = true := h q (List.mem_cons_self _ _)
    have hqs : ∀ x ∈ qs, strcasecmp_eq x ApcupsdQuiet = true :=
      fun x hx => h x (List.mem_cons_of_mem _ hx)
    rw [List.cons_append, actOnWinargs_quiet env quiet q _ hq, ih true rest hqs]
    simp

/-- An argument that is not `/quiet` up to case decides: `WinMain` returns at
it, whatever arguments come after it. -/
theorem actOnWinargs_decided (env : WinEnv) (quiet : Bool) (arg : String) (rest : List String)
    (h : strcasecmp_eq arg ApcupsdQuiet = false) :
    actOnWinargs env quiet (arg :: rest) = actOnWinargs env quiet [arg] ∧
    ∃ r : WinAction × Int, actOnWinargs env quiet [arg] = some r := by
  constructor
  · simp only [actOnWinargs, h, Bool.false_eq_true, if_false]
  · simp only [actOnWinargs, h, Bool.false_eq_true, if_false]
    split_ifs <;> exact ⟨_, rfl⟩

/-- Arguments that all start with '/' go to `winargs`, in order, while there
is room for them. -/
theorem splitArgs_winargs (args : List String) :
    ∀ (command_args winargs : List String),
      (∀ a ∈ args, a.data.head? = some '/') →
      winargs.length + args.length ≤ MAX_COMMAND_ARGS →
      splitArgs args (command_args, winargs) = (command_args, winargs ++ args) := by
  induction args with
  | nil => intro c w _ _; simp [splitArgs]
  | cons a args ih =>
    intro c w h hlen
    have ha : a.data.head? = some '/' := h a (List.mem_cons_self _ _)
    have hrest : ∀ x ∈ args, x.data.head? = some '/' :=
      fun x hx => h x (List.mem_cons_of_mem _ hx)
    simp only [List.length_cons] at hlen
    have hw : w.length < MAX_COMMAND_ARGS := by omega
    rw [splitArgs, if_neg (fun hc => hc.1 ha), if_pos hw,
      ih c (w ++ [a]) hrest (by simp only [List.length_append, List.length_singleton]; omega)]
    simp

/-- The part of the claim that holds: for at most 100 arguments that all start
with '/', of which the first that is not `/quiet` up to case is `arg`,
`WinMain` returns what `arg` alone decides, with `quiet` set exactly when a
`/quiet` comes before it, whatever comes after it; and with no argument at all
it does what `/run` does. -/
theorem WinMain_first_not_quiet (env : WinEnv) (qs : List String) (arg : String)
    (rest : List String) (hq : ∀ q ∈ qs, strcasecmp_eq q ApcupsdQuiet = true)
    (harg : strcasecmp_eq arg ApcupsdQuiet = false)
    (hslash : ∀ a ∈ qs ++ arg :: rest, a.data.head? = some '/')
    (hlen : (qs ++ arg :: rest).length ≤ MAX_COMMAND_ARGS) :
    WinMain env (qs ++ arg :: rest) = actOnWinargs env (!qs.isEmpty) [arg] ∧
    (∃ r : WinAction × Int, actOnWinargs env (!qs.isEmpty) [arg] = some r) ∧
    WinMain env [] = actOnWinargs env false [ApcupsdRunAsUserApp] := by
  refine ⟨?_, (actOnWinargs_decided env _ arg [] harg).2, rfl⟩
  unfold WinMain
  rw [splitArgs_winargs _ _ _ hslash (by simpa using hlen)]
  have hne : ¬ ((qs ++ arg :: rest).length = 0) := by simp
  simp only [List.nil_append, if_neg hne]
  rw [actOnWinargs_quiet_run env qs false _ hq, (actOnWinargs_decided env _ arg rest harg).1]
  simp

/-- C22, the code at the failing input: with the one argument `/quiet`, or with
several arguments that are all `/quiet` in any case, the loop of `WinMain` ends
without a `return` and control reaches the closing brace of the function: no
exit code is defined. -/
theorem C22_only_quiet_no_return (env : WinEnv) :
    WinMain env ["/quiet"] = none ∧ WinMain env ["/quiet", "/QUIET", "/Quiet"] = none := by
  constructor <;> rfl

end Apcupsd
